import Mathlib

/-!
# Verification of the nice-lambda call pipeline and invocation client

This file gives a shallow embedding, in Lean 4, of the core of the
`nice-lambda` library (`src/index.ts`): the call-pipeline factory
`buildHandlerFactory`, the preprocessors (`preprocessorBodyJson`,
`preprocessorBody64`, `preprocessorBody64FormUrlEncoded` and the shared
`decodeEventBody64`), the API response shaper (`dataHandlerApiWithOptions`),
the API error normalizer (`errorHandlerApiWithOptions`), the method router
(`apiMethodsWithOptions`) and the synchronous invocation client
(`invokeRequestResponse`).

Modelling conventions:

* JavaScript values in the JSON-like fragment the library manipulates are
  modelled by the inductive type `JVal`.  Numbers are modelled as exact
  decimals `JVal.numv m e`, denoting `m / 10 ^ e`; this keeps the
  number/integer distinction the code's `lodash.isNumber` check depends on.
  Floating-point rounding, `NaN` and the infinities are outside the model.
* The promise chain
  `Promise.resolve(call).then(pre).then(logic).then(data => dataHandler...).catch(err => errorHandler...)`
  is modelled by sequencing `Except Thrown` computations: a stage either
  produces a value or a thrown/rejected value.  In this chain a synchronous
  `throw` inside a `.then` callback and an asynchronous rejection are
  indistinguishable (both reject the chain), so one `Except.error`
  constructor faithfully covers both.
* A handler's only observable effect is the sequence of invocations of the
  completion callback, modelled as the returned `List CbInvocation`.
* Boom errors (`badRequest`, `badImplementation`) are modelled by the
  structure `BoomError`; arbitrary thrown JavaScript values by `Thrown`.
-/

/-- JavaScript values in the JSON-like fragment used by the library.
`numv m e` denotes the decimal number `m / 10 ^ e` (so `numv 15 1` is `1.5`
and `numv n 0` is the integer `n`). -/
inductive JVal where
  | undef
  | nullv
  | boolv (b : Bool)
  | numv (m : Int) (e : Nat)
  | strv (s : String)
  | arrv (xs : List JVal)
  | objv (fs : List (String × JVal))

/-- JavaScript truthiness on `JVal` (`undefined`, `null`, `false`, `0` and
`""` are falsy; every object and array is truthy). -/
def truthy : JVal → Bool
  | .undef => false
  | .nullv => false
  | .boolv b => b
  | .numv m _ => m != 0
  | .strv s => s != ""
  | .arrv _ => true
  | .objv _ => true

/-- An event (or any JavaScript object) is a field list; lookup of an absent
key yields `undefined`, exactly as property access does in JavaScript. -/
def getField : List (String × JVal) → String → JVal
  | [], _ => .undef
  | (k, v) :: fs, key => if k = key then v else getField fs key

/-- Key-presence test, modelling `lodash.has` / `Object.hasOwn` on the
field list of an object. -/
def hasField : List (String × JVal) → String → Bool
  | [], _ => false
  | (k, _) :: fs, key => k == key || hasField fs key

/-- The object spread `{...obj, key: v}`: if `key` is already present its
value is replaced in place, otherwise the field is appended at the end. -/
def setField : List (String × JVal) → String → JVal → List (String × JVal)
  | [], key, v => [(key, v)]
  | (k, w) :: fs, key, v =>
    if k = key then (k, v) :: fs else (k, w) :: setField fs key v

/-- Property access `obj.key` on a `JVal`: `undefined` on non-objects. -/
def rawGet : JVal → String → JVal
  | .objv fs, key => getField fs key
  | _, _ => (.undef)

/-- `lodash.get(value, key, defaultValue)`: the default is returned exactly
when the resolved value is `undefined` (in particular `null` is returned
as `null`, not replaced by the default). -/
def lodashGet (v : JVal) (key : String) (dflt : JVal) : JVal :=
  match rawGet v key with
  | .undef => dflt
  | x => x

/-- `lodash.isPlainObject`: true exactly on plain objects (arrays, `null`
and primitives are not plain objects). -/
def isPlainObject : JVal → Bool
  | .objv _ => true
  | _ => false

/-- `lodash.isNumber`: true exactly on numbers (of any kind, integral or
not). -/
def isNumber : JVal → Bool
  | .numv _ _ => true
  | _ => false

/-- A Boom HTTP error as created by `badRequest` / `badImplementation`:
the HTTP status code together with the error's own `message`. -/
structure BoomError where
  statusCode : Nat
  message : String
  deriving DecidableEq, Repr

/-- `Boom.badRequest(message)`: a 400 (client-caused, validation-class)
error. -/
def badRequest (m : String) : BoomError := ⟨400, m⟩

/-- `Boom.badImplementation(message)`: a 500 (server-caused,
implementation-class) error. -/
def badImplementation (m : String) : BoomError := ⟨500, m⟩

/-- The standard HTTP error name Boom puts in `output.payload.error`. -/
def httpErrorName : Nat → String
  | 400 => "Bad Request"
  | 500 => "Internal Server Error"
  | _ => "Unknown"

/-- `boom.output.payload`: the `{statusCode, error, message}` object Boom
exposes for the wire.  For 5xx errors Boom replaces the message by the
generic `"An internal server error occurred"`. -/
def boomPayload (b : BoomError) : JVal :=
  .objv [("statusCode", .numv b.statusCode 0),
         ("error", .strv (httpErrorName b.statusCode)),
         ("message",
          .strv (if 500 ≤ b.statusCode then "An internal server error occurred"
                 else b.message))]

/-- A thrown (or rejected-with) JavaScript value: a Boom error object, a
plain `new Error(message)`, or an arbitrary value. -/
inductive Thrown where
  | boom (b : BoomError)
  | err (message : String)
  | value (v : JVal)

/-- One invocation of the error-first completion callback.  `error = none`
models a `null` first argument; `data = JVal.undef` models an absent second
argument. -/
structure CbInvocation where
  error : Option Thrown
  data : JVal

/-- The call context `{event, context, callback}` handed to each pipeline
stage.  The callback is not stored: its invocations are the pipeline's
observable output.  The context type is an opaque parameter. -/
structure LambdaCall (γ : Type) where
  event : List (String × JVal)
  context : γ

/-- A preprocessor stage: either produces a (possibly new) call or throws /
rejects. -/
def Preproc (γ : Type) := LambdaCall γ → Except Thrown (LambdaCall γ)

/-- A logic-handler stage: either resolves to a data value or throws /
rejects. -/
def Logic (γ : Type) := LambdaCall γ → Except Thrown JVal

/-- A data-handler stage: receives the original call plus the resolved
data; either completes, having emitted the given callback invocations, or
throws / rejects (before emitting anything). -/
def DataH (γ : Type) := LambdaCall γ → JVal → Except Thrown (List CbInvocation)

/-- An error-handler stage: receives the original call plus the caught
value and completes, emitting the given callback invocations. -/
def ErrH (γ : Type) := LambdaCall γ → Thrown → List CbInvocation

/-- The handler produced by `buildHandlerFactory(pre, dataH, errH)(logic)`,
run on one event: the warm-up short circuit, then the promise chain
`Promise.resolve(call).then(pre).then(logic).then(data => dataH({...call, data})).catch(e => errH({...call, error: e}))`.
Note that `dataH` and `errH` receive the *original* call (the closure
variable `call`), not the preprocessed one, exactly as in the source.  The
result is the list of completion-callback invocations performed. -/
def runBuiltHandler {γ : Type} (pre : Preproc γ) (dataH : DataH γ)
    (errH : ErrH γ) (logic : Logic γ)
    (event : List (String × JVal)) (context : γ) : List CbInvocation :=
  match getField event "warmupOnly" with
  | .boolv true => [⟨none, .nullv⟩]
  | _ =>
    let call : LambdaCall γ := ⟨event, context⟩
    match pre call with
    | .error e => errH call e
    | .ok call2 =>
      match logic call2 with
      | .error e => errH call e
      | .ok data =>
        match dataH call data with
        | .error e => errH call e
        | .ok out => out

/-- `preprocessorPassthrough`: the identity preprocessor. -/
def preprocessorPassthrough {γ : Type} : Preproc γ := fun call => .ok call

/-- `dataHandlerPassthrough`: `call.callback(null, call.data)`. -/
def dataHandlerPassthrough {γ : Type} : DataH γ :=
  fun _ data => .ok [⟨none, data⟩]

/-- `errorHandlerPassthrough`: `call.callback(call.error)` (the second
callback argument is absent). -/
def errorHandlerPassthrough {γ : Type} : ErrH γ :=
  fun _ e => [⟨some e, .undef⟩]

/-! ## A model of `JSON.stringify` and `JSON.parse`

The renderer follows `JSON.stringify` on the `JVal` universe: no
whitespace, short escapes for the common control characters, `\u00XX`
for the rest, object members with `undefined` values skipped, `undefined`
array elements written as `null`, and `undefined` itself not serializable
(the call returns `undefined`, modelled as `none`).  Numbers are printed
in plain decimal notation (the model covers the range where JavaScript
does not switch to exponent notation).

The parser is a fuelled recursive-descent JSON parser following the
JSON grammar accepted by `JSON.parse` (strict literals, no leading zeros,
no trailing garbage, the four whitespace characters).  Parsed numbers are
canonicalized, as JavaScript numbers carry no distinction between `1`
and `1.0`.  Surrogate-pair `\u` escapes are outside the model. -/

/-- Lower-case hexadecimal digit character for `n < 16`. -/
def hexDigitChar (n : Nat) : Char :=
  if n < 10 then Char.ofNat (48 + n) else Char.ofNat (87 + n)

/-- Upper-case hexadecimal digit character for `n < 16`. -/
def hexDigitUpper (n : Nat) : Char :=
  if n < 10 then Char.ofNat (48 + n) else Char.ofNat (55 + n)

/-- The value of a hexadecimal digit character (either case). -/
def hexVal (c : Char) : Option Nat :=
  if '0' ≤ c ∧ c ≤ '9' then some (c.toNat - 48)
  else if 'a' ≤ c ∧ c ≤ 'f' then some (c.toNat - 87)
  else if 'A' ≤ c ∧ c ≤ 'F' then some (c.toNat - 55)
  else none

/-- Little-endian decimal digits of `n`, with explicit fuel (any fuel
`≥ n` is enough; `natDecimalChars` passes `n` itself). -/
def natDigitsRevF : Nat → Nat → List Char
  | 0, _ => []
  | _ + 1, 0 => []
  | f + 1, n + 1 => Char.ofNat (48 + (n + 1) % 10) :: natDigitsRevF f ((n + 1) / 10)

/-- Decimal notation of a natural number, as JavaScript prints one. -/
def natDecimalChars (n : Nat) : List Char :=
  if n = 0 then ['0'] else (natDigitsRevF n n).reverse

/-- Left-pad a digit string with zeros to the given length. -/
def padZeros (len : Nat) (ds : List Char) : List Char :=
  List.replicate (len - ds.length) '0' ++ ds

/-- Decimal notation of the number `m / 10 ^ e`, as JavaScript prints it
in the non-exponent range: the integer part, then (for `e > 0`) a point
and exactly `e` fractional digits. -/
def renderNumChars (m : Int) (e : Nat) : List Char :=
  (if m < 0 then ['-'] else []) ++
  (if e = 0 then natDecimalChars m.natAbs
   else natDecimalChars (m.natAbs / 10 ^ e) ++
        '.' :: padZeros e (natDecimalChars (m.natAbs % 10 ^ e)))

/-- `JSON.stringify`'s escaping of one string character. -/
def escapeChar (c : Char) : List Char :=
  if c = '"' then ['\\', '"']
  else if c = '\\' then ['\\', '\\']
  else if c = Char.ofNat 8 then ['\\', 'b']
  else if c = Char.ofNat 9 then ['\\', 't']
  else if c = Char.ofNat 10 then ['\\', 'n']
  else if c = Char.ofNat 12 then ['\\', 'f']
  else if c = Char.ofNat 13 then ['\\', 'r']
  else if c.toNat < 32 then
    ['\\', 'u', '0', '0', hexDigitChar (c.toNat / 16), hexDigitChar (c.toNat % 16)]
  else [c]

/-- Escape every character of a string body. -/
def escapeList : List Char → List Char
  | [] => []
  | c :: cs => escapeChar c ++ escapeList cs

/-- A JSON string literal: quote, escaped body, quote. -/
def renderStrChars (s : String) : List Char :=
  '"' :: (escapeList s.data ++ ['"'])

/-- Is this value `undefined`? -/
def isUndef : JVal → Bool
  | .undef => true
  | _ => false

mutual

/-- `JSON.stringify` on a value, as a character list.  `undef` here renders
as `null`, which is what happens to `undefined` in array-element position;
top-level `undefined` is handled by `jsonStringify`. -/
def renderChars : JVal → List Char
  | .undef => ['n', 'u', 'l', 'l']
  | .nullv => ['n', 'u', 'l', 'l']
  | .boolv true => ['t', 'r', 'u', 'e']
  | .boolv false => ['f', 'a', 'l', 's', 'e']
  | .numv m e => renderNumChars m e
  | .strv s => renderStrChars s
  | .arrv xs => '[' :: (renderElemsChars xs ++ [']'])
  | .objv fs => '{' :: (renderMembersChars fs ++ ['}'])

/-- Array elements, comma-separated. -/
def renderElemsChars : List JVal → List Char
  | [] => []
  | [x] => renderChars x
  | x :: y :: xs => renderChars x ++ ',' :: renderElemsChars (y :: xs)

/-- Object members, comma-separated; members whose value is `undefined`
are skipped, as `JSON.stringify` does. -/
def renderMembersChars : List (String × JVal) → List Char
  | [] => []
  | (k, v) :: fs =>
    if isUndef v then renderMembersChars fs
    else
      renderStrChars k ++ ':' :: renderChars v ++
        (if renderMembersChars fs = [] then [] else ',' :: renderMembersChars fs)

end

/-- `JSON.stringify`: `undefined` is not serializable (the result is
`undefined`, i.e. `none`); every other `JVal` yields a string. -/
def jsonStringify : JVal → Option String
  | .undef => none
  | v => some (String.mk (renderChars v))

/-- The four JSON whitespace characters. -/
def isWsChar (c : Char) : Bool :=
  c = ' ' || c = Char.ofNat 9 || c = Char.ofNat 10 || c = Char.ofNat 13

/-- Drop leading JSON whitespace. -/
def skipWs : List Char → List Char
  | [] => []
  | c :: cs => if isWsChar c then skipWs cs else c :: cs

/-- Consume an exact literal. -/
def parseLit : List Char → List Char → Option (List Char)
  | [], cs => some cs
  | l :: ls, c :: cs => if c = l then parseLit ls cs else none
  | _ :: _, [] => none

/-- ASCII decimal digit test. -/
def isDigitChar (c : Char) : Bool := '0' ≤ c && c ≤ '9'

/-- Value of an ASCII decimal digit. -/
def digitVal (c : Char) : Nat := c.toNat - 48

/-- Fold decimal digits onto an accumulator. -/
def digitsToNat (acc : Nat) : List Char → Nat
  | [] => acc
  | c :: cs => digitsToNat (acc * 10 + digitVal c) cs

/-- Decode the four hex digits of a `\uXXXX` escape into a character
(`none` on a non-hex digit or a code in the surrogate range, which is
outside the model). -/
def hexQuad (h1 h2 h3 h4 : Char) : Option Char :=
  match hexVal h1, hexVal h2, hexVal h3, hexVal h4 with
  | some a, some b, some c, some d =>
    if ((a * 16 + b) * 16 + c) * 16 + d < 55296 ∨
        57344 ≤ ((a * 16 + b) * 16 + c) * 16 + d then
      some (Char.ofNat (((a * 16 + b) * 16 + c) * 16 + d))
    else none
  | _, _, _, _ => none

/-- Parse a JSON string body after the opening quote, accumulating
characters in reverse.  Raw control characters are rejected, the standard
escapes and `\uXXXX` (basic multilingual plane scalars) are accepted. -/
def parseStringAux : List Char → List Char → Option (String × List Char)
  | _, [] => none
  | acc, c :: cs =>
    if c = '"' then some (String.mk acc.reverse, cs)
    else if c = '\\' then
      match cs with
      | [] => none
      | d :: cs2 =>
        if d = '"' then parseStringAux ('"' :: acc) cs2
        else if d = '\\' then parseStringAux ('\\' :: acc) cs2
        else if d = '/' then parseStringAux ('/' :: acc) cs2
        else if d = 'b' then parseStringAux (Char.ofNat 8 :: acc) cs2
        else if d = 'f' then parseStringAux (Char.ofNat 12 :: acc) cs2
        else if d = 'n' then parseStringAux (Char.ofNat 10 :: acc) cs2
        else if d = 'r' then parseStringAux (Char.ofNat 13 :: acc) cs2
        else if d = 't' then parseStringAux (Char.ofNat 9 :: acc) cs2
        else if d = 'u' then
          match cs2 with
          | h1 :: h2 :: h3 :: h4 :: cs3 =>
            match hexQuad h1 h2 h3 h4 with
            | some ch => parseStringAux (ch :: acc) cs3
            | none => none
          | _ => none
        else none
    else if c.toNat < 32 then none
    else parseStringAux (c :: acc) cs

/-- The leading minus sign of a JSON number, if any. -/
def parseSign : List Char → Bool × List Char
  | [] => (false, [])
  | c :: r => if c = '-' then (true, r) else (false, c :: r)

/-- The integer-part digits of a JSON number: `0`, or a nonzero leading
digit followed by any digits (leading zeros are not accepted). -/
def parseIntDigits : List Char → Option (List Char × List Char)
  | [] => none
  | c :: cs =>
    if c = '0' then some (['0'], cs)
    else if isDigitChar c then
      some (c :: cs.takeWhile isDigitChar, cs.dropWhile isDigitChar)
    else none

/-- The optional fraction part: absent, or a point followed by at least
one digit. -/
def parseFracPart : List Char → Option (List Char × List Char)
  | [] => some ([], [])
  | c :: cs =>
    if c = '.' then
      if cs.takeWhile isDigitChar = [] then none
      else some (cs.takeWhile isDigitChar, cs.dropWhile isDigitChar)
    else some ([], c :: cs)

/-- The optional exponent part: absent (`0`), or `e`/`E`, an optional
sign and at least one digit. -/
def parseExpPart : List Char → Option (Int × List Char)
  | c :: cs =>
    if c = 'e' || c = 'E' then
      let sr : Int × List Char :=
        match cs with
        | '+' :: r => (1, r)
        | '-' :: r => (-1, r)
        | r => (1, r)
      let ds := sr.2.takeWhile isDigitChar
      if ds = [] then none
      else some (sr.1 * (digitsToNat 0 ds : Int), sr.2.dropWhile isDigitChar)
    else some (0, c :: cs)
  | [] => some (0, [])

/-- Strip factors of ten from the mantissa while the exponent is
positive: JavaScript numbers do not distinguish `1.0` from `1`. -/
def canonNumAux : Nat → Int → Nat → Int × Nat
  | _, m, 0 => (m, 0)
  | 0, m, e => (m, e)
  | f + 1, m, e + 1 => if m % 10 = 0 then canonNumAux f (m / 10) e else (m, e + 1)

/-- Assemble the parsed sign, integer digits, fraction digits and exponent
into a canonical decimal `JVal.numv`. -/
def assembleNumber (neg : Bool) (ids fds : List Char) (p : Int) : JVal :=
  let mAbs : Nat := digitsToNat (digitsToNat 0 ids) fds
  let mI : Int := if neg then -(mAbs : Int) else (mAbs : Int)
  let q : Int := (fds.length : Int) - p
  let me : Int × Nat :=
    if q ≤ 0 then (mI * 10 ^ (-q).toNat, 0) else (mI, q.toNat)
  let mc := canonNumAux me.2 me.1 me.2
  .numv mc.1 mc.2

/-- Parse a JSON number (sign, integer part, optional fraction, optional
exponent) into a canonical decimal `JVal.numv`. -/
def parseNumber (cs : List Char) : Option (JVal × List Char) :=
  let nr := parseSign cs
  match parseIntDigits nr.2 with
  | none => none
  | some (ids, cs1) =>
    match parseFracPart cs1 with
    | none => none
    | some (fds, cs2) =>
      match parseExpPart cs2 with
      | none => none
      | some (p, cs3) => some (assembleNumber nr.1 ids fds p, cs3)

/-- Parse comma-separated array elements up to the closing bracket, with
the element parser passed in and fuel bounding the number of elements. -/
def parseElemsAux (p : List Char → Option (JVal × List Char)) :
    Nat → List Char → Option (List JVal × List Char)
  | 0, _ => none
  | f + 1, cs => do
    let (v, r) ← p cs
    match skipWs r with
    | [] => none
    | d :: r2 =>
      if d = ',' then do
        let (vs, r3) ← parseElemsAux p f r2
        pure (v :: vs, r3)
      else if d = ']' then pure ([v], r2)
      else none

/-- Parse comma-separated object members up to the closing brace, with
the value parser passed in and fuel bounding the number of members. -/
def parseMembersAux (p : List Char → Option (JVal × List Char)) :
    Nat → List Char → Option (List (String × JVal) × List Char)
  | 0, _ => none
  | f + 1, cs =>
    match skipWs cs with
    | [] => none
    | q :: cs2 =>
      if q = '"' then do
        let (k, r) ← parseStringAux [] cs2
        match skipWs r with
        | [] => none
        | col :: r2 =>
          if col = ':' then do
            let (v, r3) ← p r2
            match skipWs r3 with
            | [] => none
            | d :: r4 =>
              if d = ',' then do
                let (fs, r5) ← parseMembersAux p f r4
                pure ((k, v) :: fs, r5)
              else if d = '}' then pure ([(k, v)], r4)
              else none
          else none
      else none

/-- Parse one JSON value (with leading whitespace), fuelled. -/
def parseValueF : Nat → List Char → Option (JVal × List Char)
  | 0, _ => none
  | f + 1, cs =>
    match skipWs cs with
    | [] => none
    | c :: cs2 =>
      if c = 'n' then (parseLit ['u', 'l', 'l'] cs2).map (fun r => (JVal.nullv, r))
      else if c = 't' then (parseLit ['r', 'u', 'e'] cs2).map (fun r => (JVal.boolv true, r))
      else if c = 'f' then (parseLit ['a', 'l', 's', 'e'] cs2).map (fun r => (JVal.boolv false, r))
      else if c = '"' then (parseStringAux [] cs2).map (fun p => (JVal.strv p.1, p.2))
      else if c = '[' then
        match skipWs cs2 with
        | [] => none
        | d :: r =>
          if d = ']' then some (JVal.arrv [], r)
          else (parseElemsAux (parseValueF f) f (d :: r)).map
            (fun p => (JVal.arrv p.1, p.2))
      else if c = '{' then
        match skipWs cs2 with
        | [] => none
        | d :: r =>
          if d = '}' then some (JVal.objv [], r)
          else (parseMembersAux (parseValueF f) f (d :: r)).map
            (fun p => (JVal.objv p.1, p.2))
      else parseNumber (c :: cs2)

/-- `JSON.parse`: parse a complete JSON document (nothing but whitespace
may follow the value).  `none` models a thrown `SyntaxError`.  The fuel
`length + 1` always suffices, since every nesting level and every element
consumes at least one character. -/
def jsonParse (s : String) : Option JVal :=
  match parseValueF (s.data.length + 1) s.data with
  | some (v, rest) => if skipWs rest = [] then some v else none
  | none => none

mutual

/-- JavaScript string coercion `String(v)` on the modelled fragment
(arrays join their elements with commas, plain objects print as
`[object Object]`). -/
def jsToString : JVal → String
  | .undef => "undefined"
  | .nullv => "null"
  | .boolv b => if b then "true" else "false"
  | .numv m e => String.mk (renderNumChars m e)
  | .strv s => s
  | .arrv xs => jsArrJoin xs
  | .objv _ => "[object Object]"

/-- `Array.prototype.toString`: elements joined with commas, `null` and
`undefined` elements becoming empty strings. -/
def jsArrJoin : List JVal → String
  | [] => ""
  | [x] => jsElemString x
  | x :: y :: xs => jsElemString x ++ "," ++ jsArrJoin (y :: xs)

/-- One array element under `join`: `null` and `undefined` elements are
empty, every other element is its string coercion. -/
def jsElemString : JVal → String
  | .undef => ""
  | .nullv => ""
  | .boolv b => if b then "true" else "false"
  | .numv m e => String.mk (renderNumChars m e)
  | .strv s => s
  | .arrv xs => jsArrJoin xs
  | .objv _ => "[object Object]"

end

/-! ## Base64 and form-url-encoding

`Buffer.from(s, 'base64').toString()` is modelled on the ASCII fragment:
the base64 alphabet decode ignores padding and non-alphabet characters (as
Node's forgiving decoder does) and the resulting bytes are read back as
characters (UTF-8 decoding restricted to ASCII, which is the fragment the
form-encoding claims quantify over).  `decodeURIComponent` is likewise
modelled on single-byte (ASCII) percent escapes; multi-byte UTF-8 escape
sequences are outside the model. -/

/-- The base64 alphabet character for a sextet `n < 64`. -/
def b64Char (n : Nat) : Char :=
  if n < 26 then Char.ofNat (65 + n)
  else if n < 52 then Char.ofNat (97 + (n - 26))
  else if n < 62 then Char.ofNat (48 + (n - 52))
  else if n = 62 then '+'
  else '/'

/-- The sextet of a base64 alphabet character (`none` for padding and any
other character, which Node's decoder skips). -/
def b64Index (c : Char) : Option Nat :=
  if 'A' ≤ c ∧ c ≤ 'Z' then some (c.toNat - 65)
  else if 'a' ≤ c ∧ c ≤ 'z' then some (c.toNat - 71)
  else if '0' ≤ c ∧ c ≤ '9' then some (c.toNat + 4)
  else if c = '+' then some 62
  else if c = '/' then some 63
  else none

/-- Standard base64 encoding of a byte list, with `=` padding. -/
def b64EncodeBytes : List Nat → List Char
  | [] => []
  | [a] => [b64Char (a / 4), b64Char (a % 4 * 16), '=', '=']
  | [a, b] => [b64Char (a / 4), b64Char (a % 4 * 16 + b / 16), b64Char (b % 16 * 4), '=']
  | a :: b :: c :: rest =>
    b64Char (a / 4) :: b64Char (a % 4 * 16 + b / 16) ::
    b64Char (b % 16 * 4 + c / 64) :: b64Char (c % 64) :: b64EncodeBytes rest

/-- Reassemble bytes from a sextet stream, four sextets to three bytes,
with the partial-group tails Node's decoder accepts. -/
def b64DecodeSextets : List Nat → List Nat
  | a :: b :: c :: d :: rest =>
    (a * 4 + b / 16) :: (b % 16 * 16 + c / 4) :: (c % 4 * 64 + d) ::
    b64DecodeSextets rest
  | [a, b] => [a * 4 + b / 16]
  | [a, b, c] => [a * 4 + b / 16, b % 16 * 16 + c / 4]
  | _ => []

/-- Node's base64 decode of a character list to bytes: non-alphabet
characters (including `=` padding) are skipped, then sextets are packed. -/
def b64DecodeToBytes (s : List Char) : List Nat :=
  b64DecodeSextets (s.filterMap b64Index)

/-- `Buffer.from(s, 'base64').toString()` on the ASCII fragment. -/
def bufferFromBase64ToString (s : String) : String :=
  String.mk ((b64DecodeToBytes s.data).map Char.ofNat)

/-- All characters of a string are ASCII. -/
def isAsciiStr (s : String) : Bool := s.data.all (fun c => c.toNat < 128)

/-- The characters standard form-url-encoding leaves unencoded. -/
def isFormUnreserved (c : Char) : Bool :=
  ('A' ≤ c && c ≤ 'Z') || ('a' ≤ c && c ≤ 'z') || ('0' ≤ c && c ≤ '9') ||
  c = '-' || c = '_' || c = '.' || c = '*'

/-- Standard form-url-encoding of one character: unreserved characters
kept, space as `+`, everything else percent-escaped. -/
def formEncodeChar (c : Char) : List Char :=
  if isFormUnreserved c then [c]
  else if c = ' ' then ['+']
  else ['%', hexDigitUpper (c.toNat / 16), hexDigitUpper (c.toNat % 16)]

/-- Form-url-encode a character list. -/
def formEncodeStr : List Char → List Char
  | [] => []
  | c :: cs => formEncodeChar c ++ formEncodeStr cs

/-- One encoded `key=value` pair. -/
def formEncodePair (kv : String × String) : List Char :=
  formEncodeStr kv.1.data ++ '=' :: formEncodeStr kv.2.data

/-- Encoded pairs joined with `&`. -/
def joinAmpPairs : List (String × String) → List Char
  | [] => []
  | [kv] => formEncodePair kv
  | kv :: kv2 :: rest => formEncodePair kv ++ '&' :: joinAmpPairs (kv2 :: rest)

/-- Standard form-url-encoding (`application/x-www-form-urlencoded`) of a
mapping, in insertion order. -/
def formUrlEncode (pairs : List (String × String)) : String :=
  String.mk (joinAmpPairs pairs)

/-- `String.prototype.split(sep)` for a one-character separator: the JS
behavior, where an empty string yields `[""]` and adjacent separators
yield empty segments. -/
def splitOnChar (sep : Char) : List Char → List (List Char)
  | [] => [[]]
  | c :: cs =>
    let r := splitOnChar sep cs
    if c = sep then [] :: r
    else
      match r with
      | h :: t => (c :: h) :: t
      | [] => [[c]]

/-- `.replace(/\+/g, ' ')`. -/
def plusToSpace (cs : List Char) : List Char :=
  cs.map (fun c => if c = '+' then ' ' else c)

/-- `decodeURIComponent` on the ASCII fragment: percent escapes decode to
single bytes `< 128`; a malformed escape (or a byte outside the modelled
ASCII range, where real UTF-8 decoding would begin) is a `URIError`,
modelled as `none`. -/
def percentDecode : List Char → Option (List Char)
  | [] => some []
  | c :: cs =>
    if c = '%' then
      match cs with
      | h1 :: h2 :: cs2 =>
        match hexVal h1, hexVal h2 with
        | some a, some b =>
          if a * 16 + b < 128 then
            (percentDecode cs2).map (fun r => Char.ofNat (a * 16 + b) :: r)
          else none
        | _, _ => none
      | _ => none
    else (percentDecode cs).map (fun r => c :: r)

/-! ## The preprocessors and `decodeEventBody64` -/

/-- `decodeEventBody64(event)`: requires a truthy `body64`, fails if a
truthy `body` is also present, then base64-decodes.  `Buffer.from` on a
string never throws, so the decode-failure branch is reached exactly when
`body64` is truthy but not a string (where `Buffer.from` throws a
`TypeError`, caught and wrapped). -/
def decodeEventBody64 (event : List (String × JVal)) : Except BoomError String :=
  if ¬ truthy (getField event "body64") then
    .error (badImplementation "No base64-encoded body found")
  else if truthy (getField event "body") then
    .error (badImplementation "Event already contains body in addition to body64")
  else
    match getField event "body64" with
    | .strv s => .ok (bufferFromBase64ToString s)
    | _ => .error (badImplementation "Failed to decode base64-encoded body")

/-- `preprocessorBody64`: spread a new call whose event carries the
decoded text as `body`. -/
def preprocessorBody64 {γ : Type} : Preproc γ := fun call =>
  match decodeEventBody64 call.event with
  | .ok s => .ok ⟨setField call.event "body" (.strv s), call.context⟩
  | .error b => .error (.boom b)

/-- `preprocessorBodyJson`: if `event.body` is truthy, `JSON.parse` it
(after JavaScript's string coercion of the argument) and spread a new call
with the parsed body; a parse failure becomes
`badImplementation('Invalid body JSON')`.  A falsy `body` leaves the call
untouched. -/
def preprocessorBodyJson {γ : Type} : Preproc γ := fun call =>
  if truthy (getField call.event "body") then
    match jsonParse (jsToString (getField call.event "body")) with
    | some v => .ok ⟨setField call.event "body" v, call.context⟩
    | none => .error (.boom (badImplementation "Invalid body JSON"))
  else .ok call

/-- One `key=value` pair of the form body: split on `=`, require exactly
two segments, replace `+` by space and percent-decode both sides.  Any
failure is the `badRequest('Failed to parse form-url-encoded body')` the
source's per-pair `catch` rethrows. -/
def parseFormPair (pair : List Char) : Except BoomError (String × String) :=
  match splitOnChar '=' pair with
  | [k, v] =>
    match percentDecode (plusToSpace k), percentDecode (plusToSpace v) with
    | some ks, some vs => .ok (String.mk ks, String.mk vs)
    | _, _ => .error (badRequest "Failed to parse form-url-encoded body")
  | _ => .error (badRequest "Failed to parse form-url-encoded body")

/-- Fold the parsed pairs into the accumulated body object
(`body[key] = value`); the first bad pair aborts the whole step. -/
def buildFormBody : List (String × JVal) → List (List Char) →
    Except BoomError (List (String × JVal))
  | acc, [] => .ok acc
  | acc, p :: ps =>
    match parseFormPair p with
    | .ok kv => buildFormBody (setField acc kv.1 (.strv kv.2)) ps
    | .error b => .error b

/-- `preprocessorBody64FormUrlEncoded`: base64-decode, split the decoded
text on `&`, parse every pair (all-or-nothing), and spread a new call
whose event's `body` is the accumulated mapping. -/
def preprocessorBody64FormUrlEncoded {γ : Type} : Preproc γ := fun call =>
  match decodeEventBody64 call.event with
  | .error b => .error (.boom b)
  | .ok decoded =>
    match buildFormBody [] (splitOnChar '&' decoded.data) with
    | .error b => .error (.boom b)
    | .ok body => .ok ⟨setField call.event "body" (.objv body), call.context⟩

/-! ## The API response shaper and error normalizer -/

/-- The `ApiOptions` configuration.  The `errorPreHandler` hook is a
logging side effect that never alters control flow and is not modelled. -/
structure ApiOptions where
  headers : Option (List (String × String))
  dataHeaders : Option (List (String × String))
  errorHeaders : Option (List (String × String))

/-- A headers mapping as a JavaScript object value. -/
def headersJVal (hs : List (String × String)) : JVal :=
  .objv (hs.map (fun kv => (kv.1, .strv kv.2)))

/-- `options.dataHeaders || options.headers || {}`. -/
def resolvedDataHeaders (o : ApiOptions) : JVal :=
  match o.dataHeaders with
  | some h => headersJVal h
  | none =>
    match o.headers with
    | some h => headersJVal h
    | none => .objv []

/-- `options.errorHeaders || options.headers || {}`. -/
def resolvedErrorHeaders (o : ApiOptions) : JVal :=
  match o.errorHeaders with
  | some h => headersJVal h
  | none =>
    match o.headers with
    | some h => headersJVal h
    | none => .objv []

/-- The `{statusCode, body, headers}` response object of the API
variants. -/
structure ApiResponse where
  statusCode : JVal
  body : JVal
  headers : JVal

/-- A response as the JavaScript value handed to the callback. -/
def apiResponseJVal (r : ApiResponse) : JVal :=
  .objv [("statusCode", r.statusCode), ("body", r.body), ("headers", r.headers)]

/-- `lodash.has(value, key)`: own-property test, false on non-objects. -/
def jsHas : JVal → String → Bool
  | .objv fs, key => hasField fs key
  | _, _ => false

/-- The final body rule: a non-string body is `JSON.stringify`-ed (which
leaves `undefined` — not a string — when the body is `undefined`). -/
def coerceBodyString : JVal → JVal
  | .strv s => .strv s
  | v =>
    match jsonStringify v with
    | some s => .strv s
    | none => (.undef)

/-- The response shaping of `dataHandlerApiWithOptions(options)`: the
structured branch for a plain object carrying `statusCode` (which
`lodash.isNumber` must accept), the default branch otherwise, then the
final body rule. -/
def dataHandlerApiShape (options : ApiOptions) (data : JVal) :
    Except BoomError ApiResponse :=
  let dataHeaders := resolvedDataHeaders options
  if isPlainObject data && jsHas data "statusCode" then
    if ¬ isNumber (rawGet data "statusCode") then
      .error (badImplementation "Data handler returned invalid status code")
    else
      .ok ⟨rawGet data "statusCode",
           coerceBodyString (lodashGet data "body" (.strv "")),
           lodashGet data "headers" dataHeaders⟩
  else
    .ok ⟨.numv 200 0, coerceBodyString data, dataHeaders⟩

/-- The response body selected by `dataHandlerApiWithOptions` before the
final stringify rule: `_.get(call.data, 'body', '')` in the structured
branch, `call.data` itself otherwise. -/
def selectedApiBody (data : JVal) : JVal :=
  if isPlainObject data && jsHas data "statusCode" then
    lodashGet data "body" (.strv "")
  else data

/-- `dataHandlerApiWithOptions(options)` as a pipeline stage: shape, then
`call.callback(null, response)`; the invalid-status-code Boom error is
thrown inside the data handler (and so lands in the promise chain's
`catch`). -/
def dataHandlerApi {γ : Type} (options : ApiOptions) : DataH γ := fun _ data =>
  match dataHandlerApiShape options data with
  | .error b => .error (.boom b)
  | .ok r => .ok [⟨none, apiResponseJVal r⟩]

/-- The error normalization of `errorHandlerApiWithOptions`: a Boom error
is used verbatim; anything else is wrapped by `badImplementation` with the
error's own `message` when present, else a fixed generic message. -/
def thrownToBoom : Thrown → BoomError
  | .boom b => b
  | .err m => badImplementation m
  | .value v =>
    badImplementation
      (match lodashGet v "message" (.strv "Unexpected internal server error") with
       | .strv s => s
       | other => jsToString other)

/-- `errorHandlerApiWithOptions(options)` as a pipeline stage:
`call.callback(null, {statusCode: boom.output.statusCode, body: JSON.stringify(boom.output.payload), headers})`. -/
def errorHandlerApi {γ : Type} (options : ApiOptions) : ErrH γ := fun _ e =>
  let b := thrownToBoom e
  [⟨none, apiResponseJVal
      ⟨.numv b.statusCode 0,
       .strv ((jsonStringify (boomPayload b)).getD ""),
       resolvedErrorHeaders options⟩⟩]

/-! ## The exported handler factories and the method router -/

/-- `lambda`: passthrough everywhere. -/
def lambda {γ : Type} (logic : Logic γ) :
    List (String × JVal) → γ → List CbInvocation :=
  runBuiltHandler preprocessorPassthrough dataHandlerPassthrough
    errorHandlerPassthrough logic

/-- `apiWithOptions(options)`: JSON body decode, API shaping, API error
normalization. -/
def apiWithOptions {γ : Type} (options : ApiOptions) (logic : Logic γ) :
    List (String × JVal) → γ → List CbInvocation :=
  runBuiltHandler preprocessorBodyJson (dataHandlerApi options)
    (errorHandlerApi options) logic

/-- `api = apiWithOptions({})`. -/
def api {γ : Type} (logic : Logic γ) :
    List (String × JVal) → γ → List CbInvocation :=
  apiWithOptions ⟨none, none, none⟩ logic

/-- `postRaw`: base64 raw decode, passthrough shaping. -/
def postRaw {γ : Type} (logic : Logic γ) :
    List (String × JVal) → γ → List CbInvocation :=
  runBuiltHandler preprocessorBody64 dataHandlerPassthrough
    errorHandlerPassthrough logic

/-- `postFormUrlEncoded`: base64 form decode, passthrough shaping. -/
def postFormUrlEncoded {γ : Type} (logic : Logic γ) :
    List (String × JVal) → γ → List CbInvocation :=
  runBuiltHandler preprocessorBody64FormUrlEncoded dataHandlerPassthrough
    errorHandlerPassthrough logic

/-- `lodash.toLower` on the ASCII fragment (character-wise lower-casing
of the string coercion's result). -/
def lowerStr (s : String) : String := String.mk (s.data.map Char.toLower)

/-- First-match lookup in a method mapping (a plain-object property read;
the prototype chain is outside the model). -/
def lookupMapping {γ : Type} : List (String × Logic γ) → String → Option (Logic γ)
  | [], _ => none
  | (k, h) :: ms, key => if k = key then some h else lookupMapping ms key

/-- The `mapper` logic handler `apiMethodsWithOptions` builds around a
method mapping: require a truthy `httpMethod`, lower-case it
(`lodash.toLower`, string coercion included), look it up, and delegate to
the matched handler with the same call. -/
def apiMethodsMapper {γ : Type} (mapping : List (String × Logic γ)) : Logic γ :=
  fun call =>
    if ¬ truthy (getField call.event "httpMethod") then
      .error (.boom (badImplementation "Request event did not contain httpMethod"))
    else
      let methodStr := jsToString (getField call.event "httpMethod")
      match lookupMapping mapping (lowerStr methodStr) with
      | none =>
        .error (.boom (badRequest
          ("This resource does not support the '" ++ methodStr ++ "' method")))
      | some h => h call

/-- `apiMethodsWithOptions(options)(mapping)`: the API pipeline around the
mapper. -/
def apiMethodsWithOptions {γ : Type} (options : ApiOptions)
    (mapping : List (String × Logic γ)) :
    List (String × JVal) → γ → List CbInvocation :=
  apiWithOptions options (apiMethodsMapper mapping)

/-! ## The synchronous invocation client -/

/-- What the transport (`lambdaService.invoke(...).promise()`) returns for
a synchronous invocation: the HTTP-level status, the payload text and the
failure discriminator.  Absent fields are `none`. -/
structure InvokeResponse where
  StatusCode : Option Int
  Payload : Option String
  FunctionError : Option String

/-- The payload text `JSON.parse` receives: an absent payload is coerced
to the string `"undefined"` (which then fails to parse). -/
def payloadText (resp : InvokeResponse) : String :=
  match resp.Payload with
  | some s => s
  | none => "undefined"

/-- `invokeRequestResponse`, modelled from the transport response on: the
service-failure check against the synchronous success status 200, the
payload parse (whose failure is a transport-level error, raised before the
discriminator is ever inspected), and the three-way `FunctionError`
classification.  `if (response.FunctionError)` is a truthiness test, so an
empty-string discriminator falls through to the success path.  The
`Error` messages keep the identifying prefix of the source's template
strings; the interpolated diagnostic tails are not modelled. -/
def invokeRequestResponse (lambdaFunction : String) (resp : InvokeResponse) :
    Except Thrown JVal :=
  if resp.StatusCode ≠ some 200 then
    .error (.err ("Failed to invoke Lambda function " ++ lambdaFunction))
  else
    match jsonParse (payloadText resp) with
    | none =>
      .error (.err ("Failed to parse Lambda response payload '" ++
        payloadText resp ++ "'"))
    | some payload =>
      match resp.FunctionError with
      | none => .ok payload
      | some fe =>
        if fe = "" then .ok payload
        else if fe = "Unhandled" then .error (.value payload)
        else if fe = "Handled" then
          match jsonParse (jsToString (rawGet payload "errorMessage")) with
          | some v => .error (.value v)
          | none => .error (.value (rawGet payload "errorMessage"))
        else
          .error (.err ("Unrecognized Lambda response FunctionError value '" ++
            fe ++ "'"))

/-! ## Serializability and parser-fuel bookkeeping -/

mutual

/-- The values on which `JSON.stringify` is faithful: no `undefined`
anywhere (a top-level `undefined` is not serialized at all, an `undefined`
array element turns into `null` and an `undefined` member is dropped), and
every number in canonical decimal form (`e = 0`, or a mantissa not
divisible by ten), which is the only form a JavaScript number takes. -/
def jsonSerializable : JVal → Bool
  | .undef => false
  | .nullv => true
  | .boolv _ => true
  | .numv m e => e == 0 || m.natAbs % 10 != 0
  | .strv _ => true
  | .arrv xs => jsonSerializableList xs
  | .objv fs => jsonSerializableFields fs

/-- All elements serializable. -/
def jsonSerializableList : List JVal → Bool
  | [] => true
  | x :: xs => jsonSerializable x && jsonSerializableList xs

/-- All member values serializable. -/
def jsonSerializableFields : List (String × JVal) → Bool
  | [] => true
  | (_, v) :: fs => jsonSerializable v && jsonSerializableFields fs

end

mutual

/-- Fuel sufficient for `parseValueF` to parse this value's rendering:
one unit per nesting level, bounded below by the sibling counts the
element loops consume. -/
def pneed : JVal → Nat
  | .arrv xs => max xs.length (pneedList xs) + 1
  | .objv fs => max fs.length (pneedFields fs) + 1
  | _ => 1

/-- Pointwise maximum of `pneed` over elements. -/
def pneedList : List JVal → Nat
  | [] => 0
  | x :: xs => max (pneed x) (pneedList xs)

/-- Pointwise maximum of `pneed` over member values. -/
def pneedFields : List (String × JVal) → Nat
  | [] => 0
  | (_, v) :: fs => max (pneed v) (pneedFields fs)

end

/-- The continuations after which a rendered number cannot be extended by
the number grammar: end of input, or a character that is neither a digit
nor `.`, `e`, `E`. -/
def numDelim : List Char → Bool
  | [] => true
  | c :: _ => !(isDigitChar c || c = '.' || c = 'e' || c = 'E')

/-! ## Helper lemmas on field operations -/

theorem getField_setField_self (fs : List (String × JVal)) (k : String) (v : JVal) :
    getField (setField fs k v) k = v := by
  induction fs with
  | nil => simp [setField, getField]
  | cons p fs ih =>
    obtain ⟨k', w⟩ := p
    by_cases h : k' = k <;> simp [setField, getField, h, ih]

theorem getField_setField_ne (fs : List (String × JVal)) (k k' : String) (v : JVal)
    (h : k' ≠ k) : getField (setField fs k v) k' = getField fs k' := by
  induction fs with
  | nil =>
    simp only [setField, getField]
    rw [if_neg (fun hh => h hh.symm)]
  | cons p fs ih =>
    obtain ⟨k2, w⟩ := p
    simp only [setField]
    by_cases h2 : k2 = k
    · rw [if_pos h2]
      have hne : k2 ≠ k' := fun hh => h (hh ▸ h2)
      simp [getField, hne]
    · rw [if_neg h2]
      by_cases h3 : k2 = k' <;> simp [getField, h3, ih]

theorem hasField_setField_ne (fs : List (String × JVal)) (k k' : String) (v : JVal)
    (h : k' ≠ k) : hasField (setField fs k v) k' = hasField fs k' := by
  induction fs with
  | nil =>
    simp only [setField, hasField]
    simp [Ne.symm h]
  | cons p fs ih =>
    obtain ⟨k2, w⟩ := p
    simp only [setField]
    by_cases h2 : k2 = k
    · rw [if_pos h2]
      simp [hasField]
    · rw [if_neg h2]
      simp [hasField, ih]

/-! ## C1, C2: the pipeline's callback discipline -/

/-- C1: for every pipeline run — every invocation, on an event without the
warm-up marker, of a handler built by `buildHandlerFactory`, and for every
combination of throwing/rejecting preprocessor, logic handler and data
handler — the completion callback is invoked exactly once, by the success
path or by the failure path, never both and never neither; the warm-up
short circuit is itself exactly one invocation.  The hypotheses say
exactly what the spec demands of the terminal stages: a data handler that
completes has invoked the callback exactly once, and the error handler
always invokes it exactly once.  (A synchronously thrown error and an
asynchronous rejection are the same `Except.error` here, so the theorem
covers every combination of execution styles.) -/
theorem c1_callback_exactly_once {γ : Type} (pre : Preproc γ) (dataH : DataH γ)
    (errH : ErrH γ) (logic : Logic γ) (event : List (String × JVal)) (context : γ)
    (hdata : ∀ call data out, dataH call data = .ok out → out.length = 1)
    (herr : ∀ call e, (errH call e).length = 1) :
    (runBuiltHandler pre dataH errH logic event context).length = 1 := by
  unfold runBuiltHandler
  split
  · rfl
  · dsimp only
    split
    · exact herr _ _
    · split
      · exact herr _ _
      · split
        · exact herr _ _
        · next h => exact hdata _ _ _ h

/-- Witness for C1 at a concrete run: the passthrough pipeline on the
event `{}` with logic resolving to `null`. -/
theorem c1_callback_exactly_once_witness :
    (∀ call data out, dataHandlerPassthrough (γ := Unit) call data = .ok out →
      out.length = 1) ∧
    (runBuiltHandler (γ := Unit) preprocessorPassthrough dataHandlerPassthrough
      errorHandlerPassthrough (fun _ => .ok .nullv) [] ()).length = 1 := by
  have hdata : ∀ call data out,
      dataHandlerPassthrough (γ := Unit) call data = .ok out → out.length = 1 := by
    intro call data out h
    simp only [dataHandlerPassthrough, Except.ok.injEq] at h
    rw [← h]
    rfl
  exact ⟨hdata, c1_callback_exactly_once _ _ _ _ _ _ hdata (fun _ _ => rfl)⟩

/-- C2: on every event with `warmupOnly === true`, every handler produced
by `buildHandlerFactory` — whatever its preprocessor, data handler, error
handler and logic, which covers `lambda`, `api`, `postRaw` and
`postFormUrlEncoded` — invokes the callback once with `(null, null)`.
Since the conclusion holds for *all* preprocessors and logic handlers and
does not mention them, the preprocessor and the user logic are never
invoked (no behavior of theirs can be observed). -/
theorem c2_warmup_short_circuit {γ : Type} (pre : Preproc γ) (dataH : DataH γ)
    (errH : ErrH γ) (logic : Logic γ) (event : List (String × JVal)) (context : γ)
    (hw : getField event "warmupOnly" = .boolv true) :
    runBuiltHandler pre dataH errH logic event context = [⟨none, .nullv⟩] := by
  unfold runBuiltHandler
  rw [hw]

/-- Witness for C2: a warm-up event run through the passthrough pipeline
with a logic handler that would resolve differently. -/
theorem c2_warmup_short_circuit_witness :
    getField [("warmupOnly", JVal.boolv true)] "warmupOnly" = JVal.boolv true ∧
    runBuiltHandler (γ := Unit) preprocessorPassthrough dataHandlerPassthrough
      errorHandlerPassthrough (fun _ => .ok (.strv "not null")) [("warmupOnly", JVal.boolv true)] () =
      [⟨none, .nullv⟩] :=
  ⟨rfl, c2_warmup_short_circuit _ _ _ _ _ _ rfl⟩

/-! ## C9: preprocessing is a frame on `body` -/

/-- C9: every successful preprocessing step — JSON body decode, base64 raw
decode, base64 form-url-encoded decode — produces a new call whose event
differs from the original at most in `body`: every other field (`body64`
included, after a base64 decode) is present and unchanged, and the
invocation context is the same.  The embedding is the source's spread
`{...call, event: {...call.event, body}}`, which builds a new object, so
the original event value is untouched by construction. -/
theorem c9_preprocessors_frame {γ : Type} (call : LambdaCall γ) (k : String)
    (hk : k ≠ "body") :
    (∀ call2, preprocessorBodyJson call = .ok call2 →
      getField call2.event k = getField call.event k ∧
      hasField call2.event k = hasField call.event k ∧
      call2.context = call.context) ∧
    (∀ call2, preprocessorBody64 call = .ok call2 →
      getField call2.event k = getField call.event k ∧
      hasField call2.event k = hasField call.event k ∧
      call2.context = call.context) ∧
    (∀ call2, preprocessorBody64FormUrlEncoded call = .ok call2 →
      getField call2.event k = getField call.event k ∧
      hasField call2.event k = hasField call.event k ∧
      call2.context = call.context) := by
  refine ⟨?_, ?_, ?_⟩ <;> intro call2 h
  · unfold preprocessorBodyJson at h
    by_cases hb : truthy (getField call.event "body") = true
    · rw [if_pos hb] at h
      cases hp : jsonParse (jsToString (getField call.event "body")) with
      | none => rw [hp] at h; cases h
      | some v =>
        rw [hp] at h
        cases h
        exact ⟨getField_setField_ne _ _ _ _ hk, hasField_setField_ne _ _ _ _ hk, rfl⟩
    · rw [if_neg hb] at h
      cases h
      exact ⟨rfl, rfl, rfl⟩
  · unfold preprocessorBody64 at h
    cases hd : decodeEventBody64 call.event with
    | error b => rw [hd] at h; cases h
    | ok s =>
      rw [hd] at h
      cases h
      exact ⟨getField_setField_ne _ _ _ _ hk, hasField_setField_ne _ _ _ _ hk, rfl⟩
  · unfold preprocessorBody64FormUrlEncoded at h
    cases hd : decodeEventBody64 call.event with
    | error b => rw [hd] at h; cases h
    | ok s =>
      rw [hd] at h
      dsimp only at h
      cases hb : buildFormBody [] (splitOnChar '&' s.data) with
      | error b => rw [hb] at h; cases h
      | ok body =>
        rw [hb] at h
        cases h
        exact ⟨getField_setField_ne _ _ _ _ hk, hasField_setField_ne _ _ _ _ hk, rfl⟩

/-- Witness for C9: the base64 raw decode on `{body64: "eA=="}` keeps
`body64` (the frame at `k = "body64"`). -/
theorem c9_preprocessors_frame_witness :
    ("body64" : String) ≠ "body" ∧
    (∀ call2, preprocessorBody64 (γ := Unit) ⟨[("body64", JVal.strv "eA==")], ()⟩ = .ok call2 →
      getField call2.event "body64" = getField [("body64", JVal.strv "eA==")] "body64" ∧
      hasField call2.event "body64" = hasField [("body64", JVal.strv "eA==")] "body64" ∧
      call2.context = ()) :=
  ⟨by decide,
   (c9_preprocessors_frame ⟨[("body64", JVal.strv "eA==")], ()⟩ "body64" (by decide)).2.1⟩

/-! ## C4: simultaneous `body` and `body64` -/

/-- C4 (corrected): an event carrying both a truthy `body` and a truthy
`body64` always makes the body64-requiring preprocessors (`postRaw`'s and
`postFormUrlEncoded`'s) fail — but with the Implementation-class (500)
error `badImplementation('Event already contains body in addition to
body64')`, not a validation-class (400) one as the spec claims. -/
theorem c4_both_bodies_fail {γ : Type} (call : LambdaCall γ)
    (hb : truthy (getField call.event "body") = true)
    (hb64 : truthy (getField call.event "body64") = true) :
    preprocessorBody64 call =
      .error (.boom (badImplementation "Event already contains body in addition to body64")) ∧
    preprocessorBody64FormUrlEncoded call =
      .error (.boom (badImplementation "Event already contains body in addition to body64")) ∧
    (badImplementation "Event already contains body in addition to body64").statusCode = 500 := by
  have hd : decodeEventBody64 call.event =
      .error (badImplementation "Event already contains body in addition to body64") := by
    unfold decodeEventBody64
    rw [hb64, hb]
    simp
  refine ⟨?_, ?_, rfl⟩ <;>
    simp [preprocessorBody64, preprocessorBody64FormUrlEncoded, hd]

/-- Witness for C4 at the concrete event `{body: "x", body64: "eA=="}`. -/
theorem c4_both_bodies_fail_witness :
    truthy (getField [("body", JVal.strv "x"), ("body64", JVal.strv "eA==")] "body") = true ∧
    truthy (getField [("body", JVal.strv "x"), ("body64", JVal.strv "eA==")] "body64") = true ∧
    preprocessorBody64 (γ := Unit) ⟨[("body", JVal.strv "x"), ("body64", JVal.strv "eA==")], ()⟩ =
      .error (.boom (badImplementation "Event already contains body in addition to body64")) :=
  ⟨rfl, rfl,
   (c4_both_bodies_fail ⟨[("body", JVal.strv "x"), ("body64", JVal.strv "eA==")], ()⟩ rfl rfl).1⟩

/-- Counterexample for C4 as stated: at the event
`{body: "x", body64: "eA=="}` the raised error's status code is 500, and
500 is not the validation class 400. -/
theorem c4_counterexample_not_validation_class :
    preprocessorBody64 (γ := Unit) ⟨[("body", JVal.strv "x"), ("body64", JVal.strv "eA==")], ()⟩ =
      .error (.boom ⟨500, "Event already contains body in addition to body64"⟩) ∧
    (500 : Nat) ≠ 400 :=
  ⟨rfl, by decide⟩

/-! ## C5: the method router -/

/-- C5 (corrected): for every call reaching the method router's logic
handler: a falsy/absent `httpMethod` fails with the *Implementation-class*
(500) error `badImplementation('Request event did not contain
httpMethod')` — not the Bad-Request-class error the spec claims; a truthy
method whose lower-cased form is not in the mapping fails with the
Bad-Request-class (400) error naming the method; a registered method
delegates to exactly the matched handler with the same call context. -/
theorem c5_method_router {γ : Type} (mapping : List (String × Logic γ))
    (call : LambdaCall γ) :
    (truthy (getField call.event "httpMethod") = false →
      apiMethodsMapper mapping call =
        .error (.boom (badImplementation "Request event did not contain httpMethod"))) ∧
    (truthy (getField call.event "httpMethod") = true →
      lookupMapping mapping (lowerStr (jsToString (getField call.event "httpMethod"))) = none →
      apiMethodsMapper mapping call =
        .error (.boom (badRequest ("This resource does not support the '" ++
          jsToString (getField call.event "httpMethod") ++ "' method")))) ∧
    (∀ h, truthy (getField call.event "httpMethod") = true →
      lookupMapping mapping (lowerStr (jsToString (getField call.event "httpMethod"))) = some h →
      apiMethodsMapper mapping call = h call) ∧
    (badImplementation "Request event did not contain httpMethod").statusCode = 500 ∧
    ∀ msg, (badRequest msg).statusCode = 400 := by
  refine ⟨?_, ?_, ?_, rfl, fun _ => rfl⟩
  · intro hf
    unfold apiMethodsMapper
    rw [if_pos (by simp [hf])]
  · intro ht hl
    unfold apiMethodsMapper
    rw [if_neg (by simp [ht])]
    simp only [hl]
  · intro h ht hl
    unfold apiMethodsMapper
    rw [if_neg (by simp [ht])]
    simp only [hl]

/-- Witness for C5: the mapping `{get}` dispatches `GET` to its handler
and rejects `POST` with the 400 error naming `POST`. -/
theorem c5_method_router_witness :
    truthy (getField [("httpMethod", JVal.strv "POST")] "httpMethod") = true ∧
    lookupMapping (γ := Unit) [("get", fun _ => .ok (.strv "got"))]
      (lowerStr (jsToString (getField [("httpMethod", JVal.strv "POST")] "httpMethod"))) = none ∧
    apiMethodsMapper (γ := Unit) [("get", fun _ => .ok (.strv "got"))]
      ⟨[("httpMethod", JVal.strv "POST")], ()⟩ =
      .error (.boom (badRequest "This resource does not support the 'POST' method")) :=
  ⟨rfl, rfl,
   (c5_method_router (γ := Unit) [("get", fun _ => .ok (.strv "got"))]
     ⟨[("httpMethod", JVal.strv "POST")], ()⟩).2.1 rfl rfl⟩

/-- Counterexample for C5 as stated: on an event with no `httpMethod` the
mapper's error has status code 500, not the claimed Bad-Request class
400. -/
theorem c5_counterexample_missing_method_not_400 :
    apiMethodsMapper (γ := Unit) [] ⟨[], ()⟩ =
      .error (.boom ⟨500, "Request event did not contain httpMethod"⟩) ∧
    (500 : Nat) ≠ 400 :=
  ⟨rfl, by decide⟩

/-! ## C6: the `statusCode` check of the response shaper -/

/-- C6 (corrected): for a plain-object success value carrying a
`statusCode` field, the shaper's check is `lodash.isNumber`, not an
integrality check: a non-*number* `statusCode` raises the
Implementation-class error `badImplementation('Data handler returned
invalid status code')` (whose 500 response the error normalizer then
emits), while *any* number — integral or not — passes through as the
shaped response's `statusCode` verbatim. -/
theorem c6_status_code_check {γ : Type} (options : ApiOptions)
    (fs : List (String × JVal)) (hs : hasField fs "statusCode" = true) :
    (isNumber (getField fs "statusCode") = false →
      dataHandlerApiShape options (.objv fs) =
        .error (badImplementation "Data handler returned invalid status code") ∧
      ∀ call : LambdaCall γ,
        errorHandlerApi options call
          (.boom (badImplementation "Data handler returned invalid status code")) =
        [⟨none, apiResponseJVal
          ⟨.numv 500 0,
           .strv ((jsonStringify (boomPayload
             (badImplementation "Data handler returned invalid status code"))).getD ""),
           resolvedErrorHeaders options⟩⟩]) ∧
    (∀ m e, getField fs "statusCode" = .numv m e →
      ∃ r, dataHandlerApiShape options (.objv fs) = .ok r ∧ r.statusCode = .numv m e) := by
  constructor
  · intro hn
    refine ⟨?_, fun _ => rfl⟩
    unfold dataHandlerApiShape
    rw [if_pos (by simp [isPlainObject, jsHas, hs])]
    rw [if_pos (by simp [rawGet, hn])]
  · intro m e hm
    unfold dataHandlerApiShape
    rw [if_pos (by simp [isPlainObject, jsHas, hs])]
    rw [if_neg (by simp [rawGet, hm, isNumber])]
    exact ⟨_, rfl, by simp [rawGet, hm]⟩

/-- Witness for C6: a string `statusCode` trips the check. -/
theorem c6_status_code_check_witness :
    hasField [("statusCode", JVal.strv "oops")] "statusCode" = true ∧
    isNumber (getField [("statusCode", JVal.strv "oops")] "statusCode") = false ∧
    dataHandlerApiShape ⟨none, none, none⟩ (.objv [("statusCode", JVal.strv "oops")]) =
      .error (badImplementation "Data handler returned invalid status code") :=
  ⟨rfl, rfl,
   ((c6_status_code_check (γ := Unit) ⟨none, none, none⟩
     [("statusCode", JVal.strv "oops")] rfl).1 rfl).1⟩

/-- Counterexample for C6 as stated: `statusCode: 1.5` (the non-integral
number `numv 15 1`, `15 % 10 ≠ 0`) raises no error at all — the shaper
accepts it and the shaped `statusCode` is `1.5`, while the claim demands
the Implementation-class error for every non-integer. -/
theorem c6_counterexample_non_integer_accepted :
    dataHandlerApiShape ⟨none, none, none⟩ (.objv [("statusCode", JVal.numv 15 1)]) =
      .ok ⟨.numv 15 1, .strv "", .objv []⟩ ∧
    (15 : Int) % 10 ≠ 0 ∧
    (Except.ok (⟨.numv 15 1, .strv "", .objv []⟩ : ApiResponse) :
      Except BoomError ApiResponse) ≠
      .error (badImplementation "Data handler returned invalid status code") :=
  ⟨rfl, by decide, by simp⟩

/-! ## C3, C10: the synchronous invocation client -/

/-- C3: when the transport reports the success status and the `Handled`
discriminator, `invokeRequestResponse` throws the JSON parse of the
remote's `errorMessage` string when that string is valid JSON, and throws
the raw string itself when it is not. -/
theorem c3_handled_error_message_parse (lambdaFunction : String)
    (resp : InvokeResponse) (payload : JVal) (em : String)
    (hs : resp.StatusCode = some 200)
    (hp : jsonParse (payloadText resp) = some payload)
    (hf : resp.FunctionError = some "Handled")
    (hm : rawGet payload "errorMessage" = .strv em) :
    (∀ v, jsonParse em = some v →
      invokeRequestResponse lambdaFunction resp = .error (.value v)) ∧
    (jsonParse em = none →
      invokeRequestResponse lambdaFunction resp = .error (.value (.strv em))) := by
  have h1 : invokeRequestResponse lambdaFunction resp =
      match jsonParse em with
      | some v => .error (.value v)
      | none => .error (.value (.strv em)) := by
    unfold invokeRequestResponse
    rw [if_neg (by simp [hs]), hp]
    dsimp only
    rw [hf]
    dsimp only
    rw [if_neg (by decide), if_neg (by decide), if_pos rfl, hm]
    have h2 : jsToString (JVal.strv em) = em := by simp [jsToString]
    rw [h2]
  constructor
  · intro v hv
    rw [h1, hv]
  · intro hv
    rw [h1, hv]

/-- Witness for C3, scenario D of the spec: `errorMessage` is the string
`'{"code":42}'`, and the caller receives the thrown object `{code: 42}`,
not the raw string. -/
theorem c3_handled_error_message_parse_witness :
    jsonParse "\x7b\"code\":42\x7d" = some (.objv [("code", .numv 42 0)]) ∧
    invokeRequestResponse "remoteFn"
      ⟨some 200, some "\x7b\"errorMessage\":\"\x7b\\\"code\\\":42\x7d\"\x7d", some "Handled"⟩ =
      .error (.value (.objv [("code", .numv 42 0)])) :=
  ⟨rfl,
   (c3_handled_error_message_parse "remoteFn"
     ⟨some 200, some "\x7b\"errorMessage\":\"\x7b\\\"code\\\":42\x7d\"\x7d", some "Handled"⟩
     (.objv [("errorMessage", .strv "\x7b\"code\":42\x7d")]) "\x7b\"code\":42\x7d"
     rfl rfl rfl rfl).1 (.objv [("code", .numv 42 0)]) rfl⟩

/-- C10: when the transport status is the success status but the payload
string is not valid JSON, `invokeRequestResponse` raises the
transport-level payload-parse error — whatever the `FunctionError`
discriminator says, since the payload parse happens before the
discriminator is inspected. -/
theorem c10_payload_parse_precedes_classification (lambdaFunction : String)
    (resp : InvokeResponse)
    (hs : resp.StatusCode = some 200)
    (hp : jsonParse (payloadText resp) = none) :
    invokeRequestResponse lambdaFunction resp =
      .error (.err ("Failed to parse Lambda response payload '" ++
        payloadText resp ++ "'")) := by
  unfold invokeRequestResponse
  rw [if_neg (by simp [hs]), hp]

/-- Witness for C10: a non-JSON payload together with a `Handled`
discriminator still yields the transport-level parse error, not a
remote-failure classification. -/
theorem c10_payload_parse_precedes_classification_witness :
    jsonParse (payloadText ⟨some 200, some "not json", some "Handled"⟩) = none ∧
    invokeRequestResponse "remoteFn" ⟨some 200, some "not json", some "Handled"⟩ =
      .error (.err "Failed to parse Lambda response payload 'not json'") :=
  ⟨rfl, c10_payload_parse_precedes_classification "remoteFn"
    ⟨some 200, some "not json", some "Handled"⟩ rfl rfl⟩

/-! ## Character and digit arithmetic for the JSON round trip -/

theorem charToNat_ofNat (n : Nat) (h : n < 55296) : (Char.ofNat n).toNat = n := by
  have hv : Char.isValidCharNat n := Or.inl h
  simp only [Char.ofNat, hv, dif_pos, Char.ofNatAux, Char.toNat, UInt32.ofNat']
  rfl

theorem char_eq_iff_toNat (a b : Char) : a = b ↔ a.toNat = b.toNat := by
  constructor
  · intro h; rw [h]
  · intro h
    apply Char.ext
    exact UInt32.toNat.inj h

theorem char_le_iff_toNat (a b : Char) : a ≤ b ↔ a.toNat ≤ b.toNat := by
  rw [Char.le_def]
  constructor
  · exact fun h => h
  · exact fun h => h

theorem isDigitChar_iff (c : Char) :
    isDigitChar c = true ↔ 48 ≤ c.toNat ∧ c.toNat ≤ 57 := by
  unfold isDigitChar
  simp only [Bool.and_eq_true, decide_eq_true_eq, char_le_iff_toNat]
  have h0 : ('0').toNat = 48 := rfl
  have h9 : ('9').toNat = 57 := rfl
  rw [h0, h9]

theorem natDigit_isDigit (r : Nat) (h : r < 10) :
    isDigitChar (Char.ofNat (48 + r)) = true := by
  rw [isDigitChar_iff, charToNat_ofNat _ (by omega)]
  omega

theorem digitVal_natDigit (r : Nat) (h : r < 10) :
    digitVal (Char.ofNat (48 + r)) = r := by
  unfold digitVal
  rw [charToNat_ofNat _ (by omega)]
  omega

theorem natDigit_ne_zero_char (r : Nat) (h0 : 0 < r) (h : r < 10) :
    Char.ofNat (48 + r) ≠ '0' := by
  rw [Ne, char_eq_iff_toNat, charToNat_ofNat _ (by omega)]
  intro hh
  have : ('0').toNat = 48 := rfl
  omega

theorem digitsToNat_append (xs ys : List Char) (acc : Nat) :
    digitsToNat acc (xs ++ ys) = digitsToNat (digitsToNat acc xs) ys := by
  induction xs generalizing acc with
  | nil => rfl
  | cons c cs ih => exact ih (acc * 10 + digitVal c)

theorem natDigitsRevF_zero (f : Nat) : natDigitsRevF f 0 = [] := by
  cases f <;> rfl

theorem digitsToNat_nil (acc : Nat) : digitsToNat acc [] = acc := rfl

theorem digitsToNat_cons (acc : Nat) (c : Char) (cs : List Char) :
    digitsToNat acc (c :: cs) = digitsToNat (acc * 10 + digitVal c) cs := rfl

theorem natDigitsRevF_all_digits (f : Nat) :
    ∀ n c, c ∈ natDigitsRevF f n → isDigitChar c = true := by
  induction f with
  | zero =>
    intro n c hc
    rw [show natDigitsRevF 0 n = [] from rfl] at hc
    cases hc
  | succ f ih =>
    intro n c hc
    cases n with
    | zero =>
      rw [natDigitsRevF_zero] at hc
      cases hc
    | succ m =>
      simp only [natDigitsRevF, List.mem_cons] at hc
      rcases hc with hc | hc
      · rw [hc]; exact natDigit_isDigit _ (Nat.mod_lt _ (by omega))
      · exact ih _ _ hc

theorem natDigitsRevF_value (f : Nat) : ∀ n acc, 0 < n → n ≤ f →
    digitsToNat acc (natDigitsRevF f n).reverse =
      acc * 10 ^ (natDigitsRevF f n).length + n := by
  induction f with
  | zero => intro n acc h0 hf; omega
  | succ f ih =>
    intro n acc h0 hf
    cases n with
    | zero => omega
    | succ m =>
      simp only [natDigitsRevF]
      by_cases hq : (m + 1) / 10 = 0
      · rw [hq, natDigitsRevF_zero]
        have h2 : (m + 1) % 10 = m + 1 := by omega
        show digitsToNat acc [Char.ofNat (48 + (m + 1) % 10)] = acc * 10 ^ 1 + (m + 1)
        rw [digitsToNat_cons, digitsToNat_nil,
          digitVal_natDigit _ (Nat.mod_lt _ (by omega)), h2, pow_one]
      · have hqle : (m + 1) / 10 ≤ f := by omega
        have hqpos : 0 < (m + 1) / 10 := by omega
        rw [List.reverse_cons, digitsToNat_append, ih _ _ hqpos hqle]
        rw [digitsToNat_cons, digitsToNat_nil,
          digitVal_natDigit _ (Nat.mod_lt _ (by omega)), List.length_cons]
        have hdm : (m + 1) / 10 * 10 + (m + 1) % 10 = m + 1 := by omega
        calc (acc * 10 ^ (natDigitsRevF f ((m + 1) / 10)).length + (m + 1) / 10) * 10 +
              (m + 1) % 10
            = acc * (10 ^ (natDigitsRevF f ((m + 1) / 10)).length * 10) +
              ((m + 1) / 10 * 10 + (m + 1) % 10) := by ring
          _ = acc * 10 ^ ((natDigitsRevF f ((m + 1) / 10)).length + 1) + (m + 1) := by
              rw [hdm, ← pow_succ]

theorem natDecimalChars_all_digits (n : Nat) :
    ∀ c ∈ natDecimalChars n, isDigitChar c = true := by
  intro c hc
  unfold natDecimalChars at hc
  by_cases h : n = 0
  · rw [if_pos h] at hc
    simp only [List.mem_singleton] at hc
    rw [hc]
    rfl
  · rw [if_neg h] at hc
    rw [List.mem_reverse] at hc
    exact natDigitsRevF_all_digits n n c hc

theorem natDecimalChars_value (n acc : Nat) :
    digitsToNat acc (natDecimalChars n) =
      acc * 10 ^ (natDecimalChars n).length + n := by
  unfold natDecimalChars
  by_cases h : n = 0
  · rw [if_pos h]
    rw [digitsToNat_cons, digitsToNat_nil]
    subst h
    show acc * 10 + digitVal '0' = acc * 10 ^ 1 + 0
    rw [show digitVal '0' = 0 from rfl, pow_one]
  · rw [if_neg h]
    rw [List.length_reverse]
    exact natDigitsRevF_value n n acc (by omega) le_rfl

theorem natDecimalChars_cons (n : Nat) :
    ∃ c t, natDecimalChars n = c :: t ∧ isDigitChar c = true ∧ (0 < n → c ≠ '0') := by
  unfold natDecimalChars
  by_cases h : n = 0
  · rw [if_pos h]
    exact ⟨'0', [], rfl, rfl, by omega⟩
  · rw [if_neg h]
    have hrec : ∀ f n, 0 < n → n ≤ f →
        ∃ c t, (natDigitsRevF f n).reverse = c :: t ∧ isDigitChar c = true ∧ c ≠ '0' := by
      intro f
      induction f with
      | zero => intro n h0 hf; omega
      | succ f ih =>
        intro n h0 hf
        cases n with
        | zero => omega
        | succ m =>
          simp only [natDigitsRevF]
          by_cases hq : (m + 1) / 10 = 0
          · rw [hq, natDigitsRevF_zero]
            refine ⟨Char.ofNat (48 + (m + 1) % 10), [], rfl,
              natDigit_isDigit _ (by omega), natDigit_ne_zero_char _ ?_ (by omega)⟩
            omega
          · obtain ⟨c, t, hct, hd, hz⟩ := ih ((m + 1) / 10) (by omega) (by omega)
            rw [List.reverse_cons, hct]
            exact ⟨c, t ++ [Char.ofNat (48 + (m + 1) % 10)], rfl, hd, hz⟩
    obtain ⟨c, t, hct, hd, hz⟩ := hrec n n (by omega) le_rfl
    exact ⟨c, t, hct, hd, fun _ => hz⟩

theorem takeWhile_append_all (p : Char → Bool) (xs ys : List Char)
    (hxs : ∀ c ∈ xs, p c = true)
    (hys : ∀ y t, ys = y :: t → p y = false) :
    (xs ++ ys).takeWhile p = xs ∧ (xs ++ ys).dropWhile p = ys := by
  induction xs with
  | nil =>
    simp only [List.nil_append]
    cases ys with
    | nil => exact ⟨rfl, rfl⟩
    | cons y t =>
      have hy := hys y t rfl
      constructor
      · rw [List.takeWhile_cons, hy]
        simp
      · rw [List.dropWhile_cons, hy]
        simp
  | cons x xs ih =>
    have hx := hxs x (by simp)
    obtain ⟨ih1, ih2⟩ := ih (fun c hc => hxs c (by simp [hc]))
    constructor
    · rw [List.cons_append, List.takeWhile_cons, hx]
      simp [ih1]
    · rw [List.cons_append, List.dropWhile_cons, hx]
      simp [ih2]

theorem parseIntDigits_decimal (n : Nat) (rest : List Char)
    (hrest : ∀ y t, rest = y :: t → isDigitChar y = false) :
    parseIntDigits (natDecimalChars n ++ rest) = some (natDecimalChars n, rest) := by
  by_cases h : n = 0
  · subst h
    cases rest with
    | nil => rfl
    | cons y t => rfl
  · obtain ⟨c, t, hct, hdig, hne⟩ := natDecimalChars_cons n
    have hne0 : c ≠ '0' := hne (by omega)
    rw [hct, List.cons_append]
    simp only [parseIntDigits]
    rw [if_neg hne0, if_pos hdig]
    have hall : ∀ d ∈ t, isDigitChar d = true := by
      intro d hd
      exact natDecimalChars_all_digits n d (by rw [hct]; simp [hd])
    obtain ⟨h1, h2⟩ := takeWhile_append_all isDigitChar t rest hall hrest
    rw [h1, h2]

theorem parseFracPart_none (cs : List Char)
    (h : ∀ y t, cs = y :: t → y ≠ '.') :
    parseFracPart cs = some ([], cs) := by
  cases cs with
  | nil => rfl
  | cons y t =>
    simp only [parseFracPart]
    rw [if_neg (h y t rfl)]

theorem parseFracPart_frac (ds rest : List Char) (hne : ds ≠ [])
    (hds : ∀ c ∈ ds, isDigitChar c = true)
    (hrest : ∀ y t, rest = y :: t → isDigitChar y = false) :
    parseFracPart ('.' :: (ds ++ rest)) = some (ds, rest) := by
  simp only [parseFracPart]
  rw [if_pos trivial]
  obtain ⟨h1, h2⟩ := takeWhile_append_all isDigitChar ds rest hds hrest
  rw [h1, h2, if_neg hne]

theorem parseExpPart_none (cs : List Char)
    (h : ∀ y t, cs = y :: t → y ≠ 'e' ∧ y ≠ 'E') :
    parseExpPart cs = some (0, cs) := by
  cases cs with
  | nil => rfl
  | cons y t =>
    simp only [parseExpPart]
    obtain ⟨h1, h2⟩ := h y t rfl
    rw [if_neg (by simp [h1, h2])]

theorem int_emod_ten_natAbs (m : Int) : m % 10 = 0 ↔ m.natAbs % 10 = 0 := by
  omega

theorem canonNumAux_id (f : Nat) (m : Int) (e : Nat)
    (h : e = 0 ∨ m.natAbs % 10 ≠ 0) : canonNumAux f m e = (m, e) := by
  cases e with
  | zero => cases f <;> rfl
  | succ e' =>
    have hm : m.natAbs % 10 ≠ 0 := by
      rcases h with h | h
      · omega
      · exact h
    cases f with
    | zero => rfl
    | succ f =>
      show (if m % 10 = 0 then canonNumAux f (m / 10) e' else (m, e' + 1)) = (m, e' + 1)
      rw [if_neg]
      intro hh
      exact hm ((int_emod_ten_natAbs m).mp hh)

theorem assembleNumber_spec (neg : Bool) (ids fds : List Char) (m : Int) (e : Nat)
    (hval : digitsToNat (digitsToNat 0 ids) fds = m.natAbs)
    (hlen : fds.length = e)
    (hmi : (if neg then -((m.natAbs : Nat) : Int) else ((m.natAbs : Nat) : Int)) = m)
    (hc : e = 0 ∨ m.natAbs % 10 ≠ 0) :
    assembleNumber neg ids fds 0 = .numv m e := by
  unfold assembleNumber
  simp only [hval, hlen, hmi, sub_zero]
  cases e with
  | zero =>
    simp only [Nat.cast_zero, neg_zero, Int.toNat_zero, pow_zero, mul_one]
    rw [if_pos (le_refl (0 : Int))]
    rfl
  | succ e' =>
    rw [if_neg (by omega : ¬((e' + 1 : Nat) : Int) ≤ 0)]
    show JVal.numv (canonNumAux ((e' + 1 : Nat) : Int).toNat m ((e' + 1 : Nat) : Int).toNat).1
        (canonNumAux ((e' + 1 : Nat) : Int).toNat m ((e' + 1 : Nat) : Int).toNat).2 =
      JVal.numv m (e' + 1)
    have ht : ((e' + 1 : Nat) : Int).toNat = e' + 1 := by omega
    rw [ht, canonNumAux_id _ _ _ hc]

theorem digitsToNat_replicate_zero (k acc : Nat) :
    digitsToNat acc (List.replicate k '0') = acc * 10 ^ k := by
  induction k generalizing acc with
  | zero => simp [digitsToNat_nil]
  | succ k ih =>
    rw [List.replicate_succ, digitsToNat_cons, show digitVal '0' = 0 from rfl, ih]
    ring

theorem natDigitsRevF_length_le (f : Nat) :
    ∀ n k, n < 10 ^ k → (natDigitsRevF f n).length ≤ k := by
  induction f with
  | zero =>
    intro n k h
    rw [show natDigitsRevF 0 n = [] from rfl]
    simp
  | succ f ih =>
    intro n k h
    cases n with
    | zero =>
      rw [natDigitsRevF_zero]
      simp
    | succ m =>
      cases k with
      | zero => simp at h
      | succ j =>
        simp only [natDigitsRevF, List.length_cons]
        have hq : (m + 1) / 10 < 10 ^ j := by
          rw [pow_succ] at h
          omega
        have := ih ((m + 1) / 10) j hq
        omega

theorem natDecimalChars_length_le (n k : Nat) (h : n < 10 ^ k) (hk : 0 < k) :
    (natDecimalChars n).length ≤ k := by
  unfold natDecimalChars
  by_cases h0 : n = 0
  · rw [if_pos h0]
    simpa using hk
  · rw [if_neg h0, List.length_reverse]
    exact natDigitsRevF_length_le n n k h

theorem numDelim_head (rest : List Char) (h : numDelim rest = true) :
    ∀ y t, rest = y :: t →
      isDigitChar y = false ∧ y ≠ '.' ∧ y ≠ 'e' ∧ y ≠ 'E' := by
  intro y t hyt
  subst hyt
  simp only [numDelim, Bool.not_eq_true', Bool.or_eq_false_iff,
    decide_eq_false_iff_not] at h
  exact ⟨h.1.1.1, h.1.1.2, h.1.2, h.2⟩

theorem digit_ne_minus (c : Char) (h : isDigitChar c = true) : c ≠ '-' := by
  intro hh
  rw [hh] at h
  exact absurd h (by decide)

theorem parseSign_nonneg (l : List Char) (c : Char) (t : List Char)
    (hl : l = c :: t) (h : isDigitChar c = true) : parseSign l = (false, l) := by
  subst hl
  simp only [parseSign]
  rw [if_neg (digit_ne_minus c h)]

theorem parseNumber_render (m : Int) (e : Nat)
    (hc : e = 0 ∨ m.natAbs % 10 ≠ 0)
    (rest : List Char) (hrest : numDelim rest = true) :
    parseNumber (renderNumChars m e ++ rest) = some (.numv m e, rest) := by
  have hdel := numDelim_head rest hrest
  have hrd : ∀ y t, rest = y :: t → isDigitChar y = false :=
    fun y t h => (hdel y t h).1
  by_cases he : e = 0
  · subst he
    have hint := parseIntDigits_decimal m.natAbs rest hrd
    have hfrac := parseFracPart_none rest (fun y t h => (hdel y t h).2.1)
    have hexp := parseExpPart_none rest
      (fun y t h => ⟨(hdel y t h).2.2.1, (hdel y t h).2.2.2⟩)
    have hval0 : digitsToNat (digitsToNat 0 (natDecimalChars m.natAbs)) [] = m.natAbs := by
      rw [digitsToNat_nil]
      have := natDecimalChars_value m.natAbs 0
      simpa using this
    by_cases hm : m < 0
    · have hshape : renderNumChars m 0 ++ rest =
          '-' :: (natDecimalChars m.natAbs ++ rest) := by
        unfold renderNumChars
        rw [if_pos hm, if_pos rfl]
        simp
      rw [hshape]
      unfold parseNumber
      have hsign : parseSign ('-' :: (natDecimalChars m.natAbs ++ rest)) =
          (true, natDecimalChars m.natAbs ++ rest) := by
        simp [parseSign]
      rw [hsign]
      dsimp only
      rw [hint]
      dsimp only
      rw [hfrac]
      dsimp only
      rw [hexp]
      dsimp only
      rw [assembleNumber_spec true _ _ m 0 hval0 rfl
        (by show -((m.natAbs : Nat) : Int) = m; omega) hc]
    · obtain ⟨c, t, hct, hdig, _⟩ := natDecimalChars_cons m.natAbs
      have hshape : renderNumChars m 0 ++ rest = natDecimalChars m.natAbs ++ rest := by
        unfold renderNumChars
        rw [if_neg hm, if_pos rfl]
        simp
      rw [hshape]
      unfold parseNumber
      rw [parseSign_nonneg _ c (t ++ rest) (by rw [hct]; simp) hdig]
      dsimp only
      rw [hint]
      dsimp only
      rw [hfrac]
      dsimp only
      rw [hexp]
      dsimp only
      rw [assembleNumber_spec false _ _ m 0 hval0 rfl
        (by show ((m.natAbs : Nat) : Int) = m; omega) hc]
  · have hepos : 0 < e := by omega
    have hlt : m.natAbs % 10 ^ e < 10 ^ e := Nat.mod_lt _ (by positivity)
    set A := m.natAbs with hA
    set ids := natDecimalChars (A / 10 ^ e) with hids
    set pad := padZeros e (natDecimalChars (A % 10 ^ e)) with hpad
    have hplen : pad.length = e := by
      rw [hpad]
      unfold padZeros
      rw [List.length_append, List.length_replicate]
      have := natDecimalChars_length_le (A % 10 ^ e) e hlt hepos
      omega
    have hpdig : ∀ c ∈ pad, isDigitChar c = true := by
      intro c hcm
      rw [hpad] at hcm
      unfold padZeros at hcm
      rw [List.mem_append] at hcm
      rcases hcm with hcm | hcm
      · rw [List.eq_of_mem_replicate hcm]
        rfl
      · exact natDecimalChars_all_digits _ c hcm
    have hpne : pad ≠ [] := by
      intro hh
      rw [hh] at hplen
      simp at hplen
      omega
    have hint := parseIntDigits_decimal (A / 10 ^ e) ('.' :: (pad ++ rest))
      (fun y t h => by
        cases h
        rfl)
    have hfrac := parseFracPart_frac pad rest hpne hpdig hrd
    have hexp := parseExpPart_none rest
      (fun y t h => ⟨(hdel y t h).2.2.1, (hdel y t h).2.2.2⟩)
    have hval : digitsToNat (digitsToNat 0 ids) pad = A := by
      rw [hids]
      have hidsv : digitsToNat 0 (natDecimalChars (A / 10 ^ e)) = A / 10 ^ e := by
        have := natDecimalChars_value (A / 10 ^ e) 0
        simpa using this
      rw [hidsv, hpad]
      unfold padZeros
      rw [digitsToNat_append, digitsToNat_replicate_zero, natDecimalChars_value]
      set l := (natDecimalChars (A % 10 ^ e)).length with hl
      have hle : l ≤ e := natDecimalChars_length_le _ _ hlt hepos
      have hsplit : A / 10 ^ e * 10 ^ (e - l) * 10 ^ l = A / 10 ^ e * 10 ^ e := by
        rw [mul_assoc, ← pow_add]
        congr 2
        omega
      rw [hsplit, mul_comm (A / 10 ^ e) (10 ^ e)]
      exact Nat.div_add_mod A (10 ^ e)
    have hbody : renderNumChars m e ++ rest =
        (if m < 0 then ['-'] else []) ++ (ids ++ ('.' :: (pad ++ rest))) := by
      unfold renderNumChars
      rw [if_neg he]
      simp [hids, hpad, hA]
    by_cases hm : m < 0
    · rw [hbody, if_pos hm]
      unfold parseNumber
      have hsign : parseSign ('-' :: (ids ++ ('.' :: (pad ++ rest)))) =
          (true, ids ++ ('.' :: (pad ++ rest))) := by
        simp [parseSign]
      rw [show (['-'] ++ (ids ++ ('.' :: (pad ++ rest)))) =
        '-' :: (ids ++ ('.' :: (pad ++ rest))) from rfl]
      rw [hsign]
      dsimp only
      rw [hint]
      dsimp only
      rw [hfrac]
      dsimp only
      rw [hexp]
      dsimp only
      rw [assembleNumber_spec true _ _ m e hval hplen
        (by show -((m.natAbs : Nat) : Int) = m; omega) hc]
    · obtain ⟨c, t, hct, hdig, _⟩ := natDecimalChars_cons (A / 10 ^ e)
      rw [hbody, if_neg hm]
      rw [List.nil_append]
      unfold parseNumber
      rw [parseSign_nonneg _ c (t ++ ('.' :: (pad ++ rest)))
        (by rw [hids, hct]; simp) hdig]
      dsimp only
      rw [hint]
      dsimp only
      rw [hfrac]
      dsimp only
      rw [hexp]
      dsimp only
      rw [assembleNumber_spec false _ _ m e hval hplen
        (by show ((m.natAbs : Nat) : Int) = m; omega) hc]

theorem hexVal_hexDigitChar (n : Nat) (h : n < 16) :
    hexVal (hexDigitChar n) = some n := by
  have c0 : ('0' : Char).toNat = 48 := by decide
  have c9 : ('9' : Char).toNat = 57 := by decide
  have ca : ('a' : Char).toNat = 97 := by decide
  have cf : ('f' : Char).toNat = 102 := by decide
  unfold hexVal hexDigitChar
  by_cases h10 : n < 10
  · have h48 : (Char.ofNat (48 + n)).toNat = 48 + n := charToNat_ofNat _ (by omega)
    rw [if_pos h10, if_pos ⟨(char_le_iff_toNat _ _).mpr (by rw [h48, c0]; omega),
      (char_le_iff_toNat _ _).mpr (by rw [h48, c9]; omega)⟩, h48]
    congr 1
    omega
  · have h87 : (Char.ofNat (87 + n)).toNat = 87 + n := charToNat_ofNat _ (by omega)
    rw [if_neg h10]
    rw [if_neg (fun hc => by
      have h2 := (char_le_iff_toNat _ _).mp hc.2
      rw [h87, c9] at h2
      omega)]
    rw [if_pos ⟨(char_le_iff_toNat _ _).mpr (by rw [h87, ca]; omega),
      (char_le_iff_toNat _ _).mpr (by rw [h87, cf]; omega)⟩, h87]
    congr 1
    omega

theorem parseStringAux_cons (acc : List Char) (c : Char) (cs : List Char) :
    parseStringAux acc (c :: cs) =
      if c = '"' then some (String.mk acc.reverse, cs)
      else if c = '\\' then
        (match cs with
        | [] => none
        | d :: cs2 =>
          if d = '"' then parseStringAux ('"' :: acc) cs2
          else if d = '\\' then parseStringAux ('\\' :: acc) cs2
          else if d = '/' then parseStringAux ('/' :: acc) cs2
          else if d = 'b' then parseStringAux (Char.ofNat 8 :: acc) cs2
          else if d = 'f' then parseStringAux (Char.ofNat 12 :: acc) cs2
          else if d = 'n' then parseStringAux (Char.ofNat 10 :: acc) cs2
          else if d = 'r' then parseStringAux (Char.ofNat 13 :: acc) cs2
          else if d = 't' then parseStringAux (Char.ofNat 9 :: acc) cs2
          else if d = 'u' then
            match cs2 with
            | h1 :: h2 :: h3 :: h4 :: cs3 =>
              match hexQuad h1 h2 h3 h4 with
              | some ch => parseStringAux (ch :: acc) cs3
              | none => none
            | _ => none
          else none)
      else if c.toNat < 32 then none
      else parseStringAux (c :: acc) cs := by
  rw [parseStringAux.eq_def]

theorem hexQuad_spec (t : Nat) (h : t < 32) :
    hexQuad '0' '0' (hexDigitChar (t / 16)) (hexDigitChar (t % 16)) =
      some (Char.ofNat t) := by
  unfold hexQuad
  rw [show hexVal '0' = some 0 from by decide,
    hexVal_hexDigitChar _ (by omega : t / 16 < 16),
    hexVal_hexDigitChar _ (by omega : t % 16 < 16)]
  show (if ((0 * 16 + 0) * 16 + t / 16) * 16 + t % 16 < 55296 ∨
      57344 ≤ ((0 * 16 + 0) * 16 + t / 16) * 16 + t % 16 then
    some (Char.ofNat (((0 * 16 + 0) * 16 + t / 16) * 16 + t % 16)) else none) =
    some (Char.ofNat t)
  rw [if_pos (Or.inl (by omega))]
  rw [show ((0 * 16 + 0) * 16 + t / 16) * 16 + t % 16 = t from by omega]

theorem parseStringAux_escape (s : List Char) : ∀ acc rest,
    parseStringAux acc (escapeList s ++ '"' :: rest) =
      some (String.mk (acc.reverse ++ s), rest) := by
  induction s with
  | nil =>
    intro acc rest
    show parseStringAux acc ('"' :: rest) = some (String.mk (acc.reverse ++ []), rest)
    rw [List.append_nil, parseStringAux.eq_def]
    dsimp only
    rw [if_pos rfl]
  | cons c cs ih =>
    intro acc rest
    rw [show escapeList (c :: cs) = escapeChar c ++ escapeList cs from rfl,
      List.append_assoc]
    unfold escapeChar
    by_cases h1 : c = '"'
    · subst h1
      rw [if_pos rfl]
      have hstep : parseStringAux acc ('\\' :: '"' :: (escapeList cs ++ '"' :: rest)) =
          parseStringAux ('"' :: acc) (escapeList cs ++ '"' :: rest) := by
        rw [parseStringAux.eq_def]
        dsimp only
        rw [if_neg (by decide), if_pos rfl, if_pos rfl]
      rw [show (['\\', '"'] ++ (escapeList cs ++ '"' :: rest)) =
        '\\' :: '"' :: (escapeList cs ++ '"' :: rest) from rfl, hstep, ih]
      simp
    · rw [if_neg h1]
      by_cases h2 : c = '\\'
      · subst h2
        rw [if_pos rfl]
        have hstep : parseStringAux acc ('\\' :: '\\' :: (escapeList cs ++ '"' :: rest)) =
            parseStringAux ('\\' :: acc) (escapeList cs ++ '"' :: rest) := by
          rw [parseStringAux.eq_def]
          dsimp only
          rw [if_neg (by decide), if_pos rfl, if_neg (by decide), if_pos rfl]
        rw [show (['\\', '\\'] ++ (escapeList cs ++ '"' :: rest)) =
          '\\' :: '\\' :: (escapeList cs ++ '"' :: rest) from rfl, hstep, ih]
        simp
      · rw [if_neg h2]
        by_cases h3 : c = Char.ofNat 8
        · subst h3
          rw [if_pos rfl]
          have hstep : parseStringAux acc ('\\' :: 'b' :: (escapeList cs ++ '"' :: rest)) =
              parseStringAux (Char.ofNat 8 :: acc) (escapeList cs ++ '"' :: rest) := by
            rw [parseStringAux.eq_def]
            dsimp only
            rw [if_neg (by decide), if_pos rfl, if_neg (by decide), if_neg (by decide), if_neg (by decide), if_pos rfl]
          rw [show (['\\', 'b'] ++ (escapeList cs ++ '"' :: rest)) =
            '\\' :: 'b' :: (escapeList cs ++ '"' :: rest) from rfl, hstep, ih]
          simp
        · rw [if_neg h3]
          by_cases h4 : c = Char.ofNat 9
          · subst h4
            rw [if_pos rfl]
            have hstep : parseStringAux acc ('\\' :: 't' :: (escapeList cs ++ '"' :: rest)) =
                parseStringAux (Char.ofNat 9 :: acc) (escapeList cs ++ '"' :: rest) := by
              rw [parseStringAux.eq_def]
              dsimp only
              rw [if_neg (by decide), if_pos rfl, if_neg (by decide), if_neg (by decide), if_neg (by decide), if_neg (by decide), if_neg (by decide), if_neg (by decide), if_neg (by decide), if_pos rfl]
            rw [show (['\\', 't'] ++ (escapeList cs ++ '"' :: rest)) =
              '\\' :: 't' :: (escapeList cs ++ '"' :: rest) from rfl, hstep, ih]
            simp
          · rw [if_neg h4]
            by_cases h5 : c = Char.ofNat 10
            · subst h5
              rw [if_pos rfl]
              have hstep : parseStringAux acc ('\\' :: 'n' :: (escapeList cs ++ '"' :: rest)) =
                  parseStringAux (Char.ofNat 10 :: acc) (escapeList cs ++ '"' :: rest) := by
                rw [parseStringAux.eq_def]
                dsimp only
                rw [if_neg (by decide), if_pos rfl, if_neg (by decide), if_neg (by decide), if_neg (by decide), if_neg (by decide), if_neg (by decide), if_pos rfl]
              rw [show (['\\', 'n'] ++ (escapeList cs ++ '"' :: rest)) =
                '\\' :: 'n' :: (escapeList cs ++ '"' :: rest) from rfl, hstep, ih]
              simp
            · rw [if_neg h5]
              by_cases h6 : c = Char.ofNat 12
              · subst h6
                rw [if_pos rfl]
                have hstep : parseStringAux acc ('\\' :: 'f' :: (escapeList cs ++ '"' :: rest)) =
                    parseStringAux (Char.ofNat 12 :: acc) (escapeList cs ++ '"' :: rest) := by
                  rw [parseStringAux.eq_def]
                  dsimp only
                  rw [if_neg (by decide), if_pos rfl, if_neg (by decide), if_neg (by decide), if_neg (by decide), if_neg (by decide), if_pos rfl]
                rw [show (['\\', 'f'] ++ (escapeList cs ++ '"' :: rest)) =
                  '\\' :: 'f' :: (escapeList cs ++ '"' :: rest) from rfl, hstep, ih]
                simp
              · rw [if_neg h6]
                by_cases h7 : c = Char.ofNat 13
                · subst h7
                  rw [if_pos rfl]
                  have hstep : parseStringAux acc ('\\' :: 'r' :: (escapeList cs ++ '"' :: rest)) =
                      parseStringAux (Char.ofNat 13 :: acc) (escapeList cs ++ '"' :: rest) := by
                    rw [parseStringAux.eq_def]
                    dsimp only
                    rw [if_neg (by decide), if_pos rfl, if_neg (by decide), if_neg (by decide), if_neg (by decide), if_neg (by decide), if_neg (by decide), if_neg (by decide), if_pos rfl]
                  rw [show (['\\', 'r'] ++ (escapeList cs ++ '"' :: rest)) =
                    '\\' :: 'r' :: (escapeList cs ++ '"' :: rest) from rfl, hstep, ih]
                  simp
                · rw [if_neg h7]
                  by_cases h8 : c.toNat < 32
                  · rw [if_pos h8]
                    have hstep : parseStringAux acc
                        ('\\' :: 'u' :: '0' :: '0' :: hexDigitChar (c.toNat / 16) ::
                          hexDigitChar (c.toNat % 16) :: (escapeList cs ++ '"' :: rest)) =
                        (match hexQuad '0' '0' (hexDigitChar (c.toNat / 16))
                            (hexDigitChar (c.toNat % 16)) with
                        | some ch => parseStringAux (ch :: acc)
                            (escapeList cs ++ '"' :: rest)
                        | none => none) := by
                      rw [parseStringAux.eq_def]
                      dsimp only
                      rw [if_neg (by decide), if_pos rfl, if_neg (by decide),
                        if_neg (by decide), if_neg (by decide), if_neg (by decide),
                        if_neg (by decide), if_neg (by decide), if_neg (by decide),
                        if_neg (by decide), if_pos rfl]
                    rw [show (['\\', 'u', '0', '0', hexDigitChar (c.toNat / 16),
                        hexDigitChar (c.toNat % 16)] ++ (escapeList cs ++ '"' :: rest)) =
                      '\\' :: 'u' :: '0' :: '0' :: hexDigitChar (c.toNat / 16) ::
                        hexDigitChar (c.toNat % 16) :: (escapeList cs ++ '"' :: rest) from rfl,
                      hstep, hexQuad_spec c.toNat h8]
                    dsimp only
                    rw [Char.ofNat_toNat, ih]
                    simp
                  · rw [if_neg h8]
                    rw [show ([c] ++ (escapeList cs ++ '"' :: rest)) =
                      c :: (escapeList cs ++ '"' :: rest) from rfl]
                    rw [parseStringAux_cons, if_neg h1, if_neg h2, if_neg h8]
                    rw [ih]
                    simp

theorem parseLit_self (ls : List Char) : ∀ rest, parseLit ls (ls ++ rest) = some rest := by
  induction ls with
  | nil => intro rest; rfl
  | cons l ls ih =>
    intro rest
    show parseLit (l :: ls) (l :: (ls ++ rest)) = some rest
    simp only [parseLit, if_true]
    exact ih rest

theorem skipWs_not_ws (c : Char) (t : List Char) (h : isWsChar c = false) :
    skipWs (c :: t) = c :: t := by
  simp [skipWs, h]

theorem digit_char_props (c : Char) (h : isDigitChar c = true) :
    isWsChar c = false ∧ c ≠ ']' ∧ c ≠ '}' ∧ c ≠ 'n' ∧ c ≠ 't' ∧ c ≠ 'f' ∧
    c ≠ '"' ∧ c ≠ '[' ∧ c ≠ '{' := by
  have ht := (isDigitChar_iff c).mp h
  have habs : ∀ d : Char, c.toNat ≠ d.toNat → c ≠ d := by
    intro d hne hh
    exact hne ((char_eq_iff_toNat c d).mp hh)
  refine ⟨?_, ?_, ?_, ?_, ?_, ?_, ?_, ?_, ?_⟩
  · simp only [isWsChar, Bool.or_eq_false_iff, decide_eq_false_iff_not]
    refine ⟨⟨⟨?_, ?_⟩, ?_⟩, ?_⟩ <;> intro hh <;> subst hh <;> exact absurd ht (by decide)
  · exact habs _ (by rw [show (']').toNat = 93 from rfl]; omega)
  · exact habs _ (by rw [show ('}').toNat = 125 from rfl]; omega)
  · exact habs _ (by rw [show ('n').toNat = 110 from rfl]; omega)
  · exact habs _ (by rw [show ('t').toNat = 116 from rfl]; omega)
  · exact habs _ (by rw [show ('f').toNat = 102 from rfl]; omega)
  · exact habs _ (by rw [show ('"').toNat = 34 from rfl]; omega)
  · exact habs _ (by rw [show ('[').toNat = 91 from rfl]; omega)
  · exact habs _ (by rw [show ('{').toNat = 123 from rfl]; omega)

theorem renderNumChars_cons (m : Int) (e : Nat) :
    ∃ c t, renderNumChars m e = c :: t ∧
      (c = '-' ∨ isDigitChar c = true) := by
  unfold renderNumChars
  by_cases hm : m < 0
  · rw [if_pos hm]
    exact ⟨'-', _, rfl, Or.inl rfl⟩
  · rw [if_neg hm]
    by_cases he : e = 0
    · rw [if_pos he]
      obtain ⟨c, t, hct, hd, _⟩ := natDecimalChars_cons m.natAbs
      rw [show ([] : List Char) ++ natDecimalChars m.natAbs = natDecimalChars m.natAbs
        from rfl, hct]
      exact ⟨c, t, rfl, Or.inr hd⟩
    · rw [if_neg he]
      obtain ⟨c, t, hct, hd, _⟩ := natDecimalChars_cons (m.natAbs / 10 ^ e)
      rw [show ([] : List Char) ++ (natDecimalChars (m.natAbs / 10 ^ e) ++
        '.' :: padZeros e (natDecimalChars (m.natAbs % 10 ^ e))) =
        natDecimalChars (m.natAbs / 10 ^ e) ++
        '.' :: padZeros e (natDecimalChars (m.natAbs % 10 ^ e)) from rfl, hct]
      exact ⟨c, _, rfl, Or.inr hd⟩

theorem renderChars_cons (v : JVal) :
    ∃ c t, renderChars v = c :: t ∧ isWsChar c = false ∧ c ≠ ']' ∧ c ≠ '}' := by
  cases v with
  | undef => exact ⟨'n', _, rfl, rfl, by decide, by decide⟩
  | nullv => exact ⟨'n', _, rfl, rfl, by decide, by decide⟩
  | boolv b =>
    rcases b with _ | _
    · exact ⟨'f', _, rfl, rfl, by decide, by decide⟩
    · exact ⟨'t', _, rfl, rfl, by decide, by decide⟩
  | numv m e =>
    obtain ⟨c, t, hct, hd⟩ := renderNumChars_cons m e
    refine ⟨c, t, hct, ?_, ?_, ?_⟩
    · rcases hd with hd | hd
      · subst hd; decide
      · exact (digit_char_props c hd).1
    · rcases hd with hd | hd
      · subst hd; decide
      · exact (digit_char_props c hd).2.1
    · rcases hd with hd | hd
      · subst hd; decide
      · exact (digit_char_props c hd).2.2.1
  | strv s => exact ⟨'"', _, rfl, rfl, by decide, by decide⟩
  | arrv xs => exact ⟨'[', _, rfl, rfl, by decide, by decide⟩
  | objv fs => exact ⟨'{', _, rfl, rfl, by decide, by decide⟩

theorem stringMk_data (s : String) : String.mk s.data = s := rfl

theorem numDelim_of_head (c : Char) (t : List Char) (h1 : isDigitChar c = false)
    (h2 : c ≠ '.') (h3 : c ≠ 'e') (h4 : c ≠ 'E') : numDelim (c :: t) = true := by
  simp [numDelim, h1, h2, h3, h4]

theorem serializable_not_undef (v : JVal) (h : jsonSerializable v = true) :
    isUndef v = false := by
  cases v with
  | undef => simp [jsonSerializable] at h
  | nullv => rfl
  | boolv b => rfl
  | numv m e => rfl
  | strv s => rfl
  | arrv xs => rfl
  | objv fs => rfl

theorem renderMembersChars_cons_eq (k : String) (v : JVal) (fs : List (String × JVal))
    (hv : isUndef v = false) :
    renderMembersChars ((k, v) :: fs) =
      renderStrChars k ++ ':' :: renderChars v ++
        (if renderMembersChars fs = [] then [] else ',' :: renderMembersChars fs) := by
  simp only [renderMembersChars]
  rw [if_neg (by simp [hv])]

theorem renderMembersChars_cons_ne_nil (k : String) (v : JVal) (fs : List (String × JVal))
    (hv : isUndef v = false) : renderMembersChars ((k, v) :: fs) ≠ [] := by
  rw [renderMembersChars_cons_eq k v fs hv]
  simp [renderStrChars]

theorem renderElemsChars_head (x : JVal) (xs : List JVal) :
    ∃ u, renderElemsChars (x :: xs) = renderChars x ++ u := by
  cases xs with
  | nil => exact ⟨[], by simp [renderElemsChars]⟩
  | cons y ys => exact ⟨',' :: renderElemsChars (y :: ys), rfl⟩

mutual

theorem parseValueF_render : ∀ (v : JVal) (f : Nat) (rest : List Char),
    jsonSerializable v = true → pneed v ≤ f → numDelim rest = true →
    parseValueF f (renderChars v ++ rest) = some (v, rest)
  | .undef, f, rest, hs, hf, hr => by simp [jsonSerializable] at hs
  | .nullv, f, rest, hs, hf, hr => by
    cases f with
    | zero => simp [pneed] at hf
    | succ f' =>
      rw [show renderChars .nullv ++ rest = 'n' :: (['u', 'l', 'l'] ++ rest) from rfl]
      simp only [parseValueF]
      rw [skipWs_not_ws _ _ (by decide)]
      try dsimp only
      rw [if_pos rfl, parseLit_self]
      rfl
  | .boolv true, f, rest, hs, hf, hr => by
    cases f with
    | zero => simp [pneed] at hf
    | succ f' =>
      rw [show renderChars (.boolv true) ++ rest = 't' :: (['r', 'u', 'e'] ++ rest) from rfl]
      simp only [parseValueF]
      rw [skipWs_not_ws _ _ (by decide)]
      try dsimp only
      rw [if_neg (by decide), if_pos rfl, parseLit_self]
      rfl
  | .boolv false, f, rest, hs, hf, hr => by
    cases f with
    | zero => simp [pneed] at hf
    | succ f' =>
      rw [show renderChars (.boolv false) ++ rest =
        'f' :: (['a', 'l', 's', 'e'] ++ rest) from rfl]
      simp only [parseValueF]
      rw [skipWs_not_ws _ _ (by decide)]
      try dsimp only
      rw [if_neg (by decide), if_neg (by decide), if_pos rfl, parseLit_self]
      rfl
  | .strv s, f, rest, hs, hf, hr => by
    cases f with
    | zero => simp [pneed] at hf
    | succ f' =>
      rw [show renderChars (.strv s) ++ rest =
        '"' :: (escapeList s.data ++ '"' :: rest) from by
          rw [show renderChars (.strv s) =
            '"' :: (escapeList s.data ++ ['"']) from rfl]
          simp]
      simp only [parseValueF]
      rw [skipWs_not_ws _ _ (by decide)]
      try dsimp only
      rw [if_neg (by decide), if_neg (by decide), if_neg (by decide), if_pos rfl,
        parseStringAux_escape]
      try dsimp only
      rw [show String.mk (([] : List Char).reverse ++ s.data) = s from by
        simp [stringMk_data]]
      rfl
  | .numv m e, f, rest, hs, hf, hr => by
    cases f with
    | zero => simp [pneed] at hf
    | succ f' =>
      obtain ⟨c, t, hct, hd⟩ := renderNumChars_cons m e
      have hprops : isWsChar c = false ∧ c ≠ 'n' ∧ c ≠ 't' ∧ c ≠ 'f' ∧ c ≠ '"' ∧
          c ≠ '[' ∧ c ≠ '{' := by
        rcases hd with hd | hd
        · subst hd
          exact ⟨by decide, by decide, by decide, by decide, by decide, by decide, by decide⟩
        · have hp := digit_char_props c hd
          exact ⟨hp.1, hp.2.2.2.1, hp.2.2.2.2.1, hp.2.2.2.2.2.1, hp.2.2.2.2.2.2.1,
            hp.2.2.2.2.2.2.2.1, hp.2.2.2.2.2.2.2.2⟩
      rw [show renderChars (.numv m e) ++ rest = c :: (t ++ rest) from by
        rw [show renderChars (.numv m e) = renderNumChars m e from rfl, hct]
        rfl]
      simp only [parseValueF]
      rw [skipWs_not_ws _ _ hprops.1]
      try dsimp only
      rw [if_neg hprops.2.1, if_neg hprops.2.2.1, if_neg hprops.2.2.2.1,
        if_neg hprops.2.2.2.2.1, if_neg hprops.2.2.2.2.2.1, if_neg hprops.2.2.2.2.2.2]
      rw [show c :: (t ++ rest) = renderNumChars m e ++ rest from by rw [hct]; rfl]
      apply parseNumber_render m e _ rest hr
      have hs2 : (e == 0 || m.natAbs % 10 != 0) = true := hs
      simp only [Bool.or_eq_true, beq_iff_eq, bne_iff_ne] at hs2
      exact hs2
  | .arrv xs, f, rest, hs, hf, hr => by
    cases f with
    | zero => simp [pneed] at hf
    | succ f' =>
      rw [show renderChars (.arrv xs) ++ rest =
        '[' :: (renderElemsChars xs ++ ']' :: rest) from by
          rw [show renderChars (.arrv xs) =
            '[' :: (renderElemsChars xs ++ [']']) from rfl]
          simp]
      simp only [parseValueF]
      rw [skipWs_not_ws _ _ (by decide)]
      try dsimp only
      rw [if_neg (by decide), if_neg (by decide), if_neg (by decide), if_neg (by decide),
        if_pos rfl]
      cases xs with
      | nil =>
        rw [show renderElemsChars [] ++ ']' :: rest = ']' :: rest from rfl]
        rw [skipWs_not_ws _ _ (by decide)]
        try dsimp only
        rw [if_pos rfl]
      | cons x xs' =>
        obtain ⟨u, hu⟩ := renderElemsChars_head x xs'
        obtain ⟨c, t, hct, hws, hbr, hbrc⟩ := renderChars_cons x
        have hshape : renderElemsChars (x :: xs') ++ ']' :: rest =
            c :: (t ++ u ++ ']' :: rest) := by
          rw [hu, hct]
          simp
        rw [hshape, skipWs_not_ws _ _ hws]
        try dsimp only
        rw [if_neg hbr]
        rw [show c :: (t ++ u ++ ']' :: rest) =
          renderElemsChars (x :: xs') ++ ']' :: rest from by rw [hu, hct]; simp]
        have hflen : (x :: xs').length ≤ f' ∧ pneedList (x :: xs') ≤ f' := by
          have hp : pneed (.arrv (x :: xs')) =
              max (x :: xs').length (pneedList (x :: xs')) + 1 := rfl
          rw [hp] at hf
          omega
        rw [parseElems_render (x :: xs') f' f' rest (by simp) hs hflen.1 hflen.2]
        rfl
  | .objv fs, f, rest, hs, hf, hr => by
    cases f with
    | zero => simp [pneed] at hf
    | succ f' =>
      rw [show renderChars (.objv fs) ++ rest =
        '{' :: (renderMembersChars fs ++ '}' :: rest) from by
          rw [show renderChars (.objv fs) =
            '{' :: (renderMembersChars fs ++ ['}']) from rfl]
          simp]
      simp only [parseValueF]
      rw [skipWs_not_ws _ _ (by decide)]
      try dsimp only
      rw [if_neg (by decide), if_neg (by decide), if_neg (by decide), if_neg (by decide),
        if_neg (by decide), if_pos rfl]
      cases fs with
      | nil =>
        rw [show renderMembersChars [] ++ '}' :: rest = '}' :: rest from rfl]
        rw [skipWs_not_ws _ _ (by decide)]
        try dsimp only
        rw [if_pos rfl]
      | cons kv fs' =>
        obtain ⟨k, v⟩ := kv
        have hserl : jsonSerializable v = true ∧ jsonSerializableFields fs' = true := by
          have hs2 : (jsonSerializable v && jsonSerializableFields fs') = true := hs
          simpa using hs2
        have hvu : isUndef v = false := serializable_not_undef v hserl.1
        have hshape : renderMembersChars ((k, v) :: fs') ++ '}' :: rest =
            '"' :: ((escapeList k.data ++ ['"']) ++
              (':' :: renderChars v ++
                (if renderMembersChars fs' = [] then []
                 else ',' :: renderMembersChars fs')) ++ '}' :: rest) := by
          rw [renderMembersChars_cons_eq k v fs' hvu]
          rw [show renderStrChars k = '"' :: (escapeList k.data ++ ['"']) from rfl]
          simp
        rw [hshape, skipWs_not_ws _ _ (by decide)]
        try dsimp only
        rw [if_neg (by decide)]
        rw [show '"' :: ((escapeList k.data ++ ['"']) ++
              (':' :: renderChars v ++
                (if renderMembersChars fs' = [] then []
                 else ',' :: renderMembersChars fs')) ++ '}' :: rest) =
          renderMembersChars ((k, v) :: fs') ++ '}' :: rest from by
            rw [renderMembersChars_cons_eq k v fs' hvu]
            rw [show renderStrChars k = '"' :: (escapeList k.data ++ ['"']) from rfl]
            simp]
        have hflen : ((k, v) :: fs').length ≤ f' ∧ pneedFields ((k, v) :: fs') ≤ f' := by
          have hp : pneed (.objv ((k, v) :: fs')) =
              max ((k, v) :: fs').length (pneedFields ((k, v) :: fs')) + 1 := rfl
          rw [hp] at hf
          omega
        rw [parseMembers_render ((k, v) :: fs') f' f' rest (by simp) hs hflen.1 hflen.2]
        rfl

theorem parseElems_render : ∀ (xs : List JVal) (f F : Nat) (rest : List Char),
    xs ≠ [] → jsonSerializableList xs = true → xs.length ≤ f → pneedList xs ≤ F →
    parseElemsAux (parseValueF F) f (renderElemsChars xs ++ ']' :: rest) = some (xs, rest)
  | [], _, _, _, hne, _, _, _ => absurd rfl hne
  | [x], f, F, rest, hne, hs, hf, hF => by
    cases f with
    | zero => simp at hf
    | succ f'' =>
      rw [show renderElemsChars [x] ++ ']' :: rest = renderChars x ++ ']' :: rest from by
        rw [show renderElemsChars [x] = renderChars x from rfl]]
      simp only [parseElemsAux]
      have hsx : jsonSerializable x = true := by
        have hs2 : (jsonSerializable x && jsonSerializableList []) = true := hs
        simp only [Bool.and_eq_true] at hs2
        exact hs2.1
      have hFx : pneed x ≤ F := by
        have hp : pneedList [x] = max (pneed x) (pneedList []) := rfl
        rw [hp] at hF
        omega
      rw [parseValueF_render x F (']' :: rest) hsx hFx
        (numDelim_of_head _ _ (by decide) (by decide) (by decide) (by decide))]
      simp only [Option.bind_eq_bind, Option.some_bind]
      rw [skipWs_not_ws _ _ (by decide)]
      try dsimp only
      rw [if_neg (by decide), if_pos rfl]
      rfl
  | x :: y :: ys, f, F, rest, hne, hs, hf, hF => by
    cases f with
    | zero => simp at hf
    | succ f'' =>
      rw [show renderElemsChars (x :: y :: ys) ++ ']' :: rest =
        renderChars x ++ (',' :: (renderElemsChars (y :: ys) ++ ']' :: rest)) from by
          rw [show renderElemsChars (x :: y :: ys) =
            renderChars x ++ ',' :: renderElemsChars (y :: ys) from rfl]
          simp]
      simp only [parseElemsAux]
      have hsx : jsonSerializable x = true ∧ jsonSerializableList (y :: ys) = true := by
        have hs2 : (jsonSerializable x && jsonSerializableList (y :: ys)) = true := hs
        simpa using hs2
      have hFx : pneed x ≤ F ∧ pneedList (y :: ys) ≤ F := by
        have hp : pneedList (x :: y :: ys) =
            max (pneed x) (pneedList (y :: ys)) := rfl
        rw [hp] at hF
        omega
      rw [parseValueF_render x F _ hsx.1 hFx.1
        (numDelim_of_head _ _ (by decide) (by decide) (by decide) (by decide))]
      simp only [Option.bind_eq_bind, Option.some_bind]
      rw [skipWs_not_ws _ _ (by decide)]
      try dsimp only
      rw [if_pos rfl]
      rw [parseElems_render (y :: ys) f'' F rest (by simp) hsx.2 (by simpa using hf) hFx.2]
      rfl

theorem parseMembers_render : ∀ (fs : List (String × JVal)) (f F : Nat) (rest : List Char),
    fs ≠ [] → jsonSerializableFields fs = true → fs.length ≤ f → pneedFields fs ≤ F →
    parseMembersAux (parseValueF F) f (renderMembersChars fs ++ '}' :: rest) =
      some (fs, rest)
  | [], _, _, _, hne, _, _, _ => absurd rfl hne
  | [(k, v)], f, F, rest, hne, hs, hf, hF => by
    cases f with
    | zero => simp at hf
    | succ f'' =>
      have hsv : jsonSerializable v = true := by
        have hs2 : (jsonSerializable v && jsonSerializableFields []) = true := hs
        simp only [Bool.and_eq_true] at hs2
        exact hs2.1
      have hvu : isUndef v = false := serializable_not_undef v hsv
      have hFv : pneed v ≤ F := by
        have hp : pneedFields [(k, v)] = max (pneed v) (pneedFields []) := rfl
        rw [hp] at hF
        omega
      rw [show renderMembersChars [(k, v)] ++ '}' :: rest =
        '"' :: (escapeList k.data ++ '"' ::
          (':' :: (renderChars v ++ '}' :: rest))) from by
          rw [renderMembersChars_cons_eq k v [] hvu]
          rw [show renderStrChars k = '"' :: (escapeList k.data ++ ['"']) from rfl]
          rw [show renderMembersChars ([] : List (String × JVal)) = [] from rfl]
          simp]
      simp only [parseMembersAux]
      rw [skipWs_not_ws _ _ (by decide)]
      try dsimp only
      rw [if_pos rfl, parseStringAux_escape]
      simp only [Option.bind_eq_bind, Option.some_bind]
      rw [skipWs_not_ws _ _ (by decide)]
      try dsimp only
      rw [if_pos rfl]
      rw [parseValueF_render v F ('}' :: rest) hsv hFv
        (numDelim_of_head _ _ (by decide) (by decide) (by decide) (by decide))]
      simp only [Option.bind_eq_bind, Option.some_bind]
      rw [skipWs_not_ws _ _ (by decide)]
      try dsimp only
      rw [if_neg (by decide), if_pos rfl]
      rw [show String.mk (([] : List Char).reverse ++ k.data) = k from by
        simp [stringMk_data]]
      rfl
  | (k, v) :: (k2, v2) :: fs', f, F, rest, hne, hs, hf, hF => by
    cases f with
    | zero => simp at hf
    | succ f'' =>
      have hsv : jsonSerializable v = true ∧
          jsonSerializableFields ((k2, v2) :: fs') = true := by
        have hs2 : (jsonSerializable v &&
          jsonSerializableFields ((k2, v2) :: fs')) = true := hs
        simpa using hs2
      have hsv2 : jsonSerializable v2 = true := by
        have hs2 : (jsonSerializable v2 && jsonSerializableFields fs') = true := hsv.2
        have := hs2
        simp only [Bool.and_eq_true] at this
        exact this.1
      have hvu : isUndef v = false := serializable_not_undef v hsv.1
      have hvu2 : isUndef v2 = false := serializable_not_undef v2 hsv2
      have hFv : pneed v ≤ F ∧ pneedFields ((k2, v2) :: fs') ≤ F := by
        have hp : pneedFields ((k, v) :: (k2, v2) :: fs') =
            max (pneed v) (pneedFields ((k2, v2) :: fs')) := rfl
        rw [hp] at hF
        omega
      have hne2 := renderMembersChars_cons_ne_nil k2 v2 fs' hvu2
      rw [show renderMembersChars ((k, v) :: (k2, v2) :: fs') ++ '}' :: rest =
        '"' :: (escapeList k.data ++ '"' ::
          (':' :: (renderChars v ++
            (',' :: (renderMembersChars ((k2, v2) :: fs') ++ '}' :: rest))))) from by
          rw [renderMembersChars_cons_eq k v ((k2, v2) :: fs') hvu]
          rw [show renderStrChars k = '"' :: (escapeList k.data ++ ['"']) from rfl]
          rw [if_neg hne2]
          simp]
      simp only [parseMembersAux]
      rw [skipWs_not_ws _ _ (by decide)]
      try dsimp only
      rw [if_pos rfl, parseStringAux_escape]
      simp only [Option.bind_eq_bind, Option.some_bind]
      rw [skipWs_not_ws _ _ (by decide)]
      try dsimp only
      rw [if_pos rfl]
      rw [parseValueF_render v F _ hsv.1 hFv.1
        (numDelim_of_head _ _ (by decide) (by decide) (by decide) (by decide))]
      simp only [Option.bind_eq_bind, Option.some_bind]
      rw [skipWs_not_ws _ _ (by decide)]
      try dsimp only
      rw [if_pos rfl]
      rw [parseMembers_render ((k2, v2) :: fs') f'' F rest (by simp) hsv.2
        (by simpa using hf) hFv.2]
      try dsimp only
      rw [show String.mk (([] : List Char).reverse ++ k.data) = k from by
        simp [stringMk_data]]
      rfl

end

theorem renderChars_length_pos (v : JVal) : 1 ≤ (renderChars v).length := by
  obtain ⟨c, t, hct, _⟩ := renderChars_cons v
  rw [hct]
  simp

mutual

theorem pneed_le_render : ∀ (v : JVal), jsonSerializable v = true →
    pneed v ≤ (renderChars v).length + 1
  | .undef, hs => by simp [jsonSerializable] at hs
  | .nullv, _ => by
    show 1 ≤ (4 : Nat) + 1
    omega
  | .boolv b, _ => by
    cases b
    · show 1 ≤ (5 : Nat) + 1
      omega
    · show 1 ≤ (4 : Nat) + 1
      omega
  | .numv m e, _ => by
    show 1 ≤ (renderNumChars m e).length + 1
    omega
  | .strv s, _ => by
    show 1 ≤ (renderStrChars s).length + 1
    omega
  | .arrv xs, hs => by
    cases xs with
    | nil =>
      show max (0 : Nat) 0 + 1 ≤ ('[' :: (renderElemsChars [] ++ [']'])).length + 1
      simp [renderElemsChars]
    | cons x xs' =>
      have hb := pneedList_le_render (x :: xs') hs (by simp)
      have hlen : (renderChars (.arrv (x :: xs'))).length =
          (renderElemsChars (x :: xs')).length + 2 := by
        rw [show renderChars (.arrv (x :: xs')) =
          '[' :: (renderElemsChars (x :: xs') ++ [']']) from rfl]
        simp
      rw [hlen]
      have hp : pneed (.arrv (x :: xs')) =
          max (x :: xs').length (pneedList (x :: xs')) + 1 := rfl
      rw [hp]
      omega
  | .objv fs, hs => by
    cases fs with
    | nil =>
      show max (0 : Nat) 0 + 1 ≤ ('{' :: (renderMembersChars [] ++ ['}'])).length + 1
      simp [renderMembersChars]
    | cons kv fs' =>
      have hb := pneedFields_le_render (kv :: fs') hs (by simp)
      have hlen : (renderChars (.objv (kv :: fs'))).length =
          (renderMembersChars (kv :: fs')).length + 2 := by
        rw [show renderChars (.objv (kv :: fs')) =
          '{' :: (renderMembersChars (kv :: fs') ++ ['}']) from rfl]
        simp
      rw [hlen]
      have hp : pneed (.objv (kv :: fs')) =
          max (kv :: fs').length (pneedFields (kv :: fs')) + 1 := rfl
      rw [hp]
      omega

theorem pneedList_le_render : ∀ (xs : List JVal), jsonSerializableList xs = true →
    xs ≠ [] →
    pneedList xs ≤ (renderElemsChars xs).length + 1 ∧
    xs.length ≤ (renderElemsChars xs).length + 1
  | [], _, hne => absurd rfl hne
  | [x], hs, _ => by
    have hsx : jsonSerializable x = true := by
      have hs2 : (jsonSerializable x && jsonSerializableList []) = true := hs
      simp only [Bool.and_eq_true] at hs2
      exact hs2.1
    have h1 := pneed_le_render x hsx
    rw [show renderElemsChars [x] = renderChars x from rfl]
    have hp : pneedList [x] = max (pneed x) (pneedList []) := rfl
    rw [hp]
    have hp0 : pneedList ([] : List JVal) = 0 := rfl
    rw [hp0]
    constructor
    · omega
    · simp
  | x :: y :: ys, hs, _ => by
    have hs2 : (jsonSerializable x && jsonSerializableList (y :: ys)) = true := hs
    simp only [Bool.and_eq_true] at hs2
    have h1 := pneed_le_render x hs2.1
    have h2 := pneedList_le_render (y :: ys) hs2.2 (by simp)
    have ha := renderChars_length_pos x
    rw [show renderElemsChars (x :: y :: ys) =
      renderChars x ++ ',' :: renderElemsChars (y :: ys) from rfl]
    have hp : pneedList (x :: y :: ys) = max (pneed x) (pneedList (y :: ys)) := rfl
    rw [hp]
    simp only [List.length_append, List.length_cons]
    have hl1 : (y :: ys).length = ys.length + 1 := rfl
    constructor
    · omega
    · have hl2 : (x :: y :: ys).length = ys.length + 2 := rfl
      omega

theorem pneedFields_le_render : ∀ (fs : List (String × JVal)),
    jsonSerializableFields fs = true → fs ≠ [] →
    pneedFields fs ≤ (renderMembersChars fs).length + 1 ∧
    fs.length ≤ (renderMembersChars fs).length + 1
  | [], _, hne => absurd rfl hne
  | [(k, v)], hs, _ => by
    have hsv : jsonSerializable v = true := by
      have hs2 : (jsonSerializable v && jsonSerializableFields []) = true := hs
      simp only [Bool.and_eq_true] at hs2
      exact hs2.1
    have h1 := pneed_le_render v hsv
    rw [renderMembersChars_cons_eq k v [] (serializable_not_undef v hsv)]
    rw [show renderMembersChars ([] : List (String × JVal)) = [] from rfl]
    rw [if_pos rfl]
    have hp : pneedFields [(k, v)] = max (pneed v) (pneedFields []) := rfl
    rw [hp]
    have hp0 : pneedFields ([] : List (String × JVal)) = 0 := rfl
    rw [hp0]
    simp only [List.length_append, List.length_cons, List.append_nil]
    constructor
    · omega
    · simp
  | (k, v) :: (k2, v2) :: fs', hs, _ => by
    have hs2 : (jsonSerializable v &&
        jsonSerializableFields ((k2, v2) :: fs')) = true := hs
    simp only [Bool.and_eq_true] at hs2
    have hsv2 : jsonSerializable v2 = true := by
      have hs3 : (jsonSerializable v2 && jsonSerializableFields fs') = true := hs2.2
      simp only [Bool.and_eq_true] at hs3
      exact hs3.1
    have h1 := pneed_le_render v hs2.1
    have h2 := pneedFields_le_render ((k2, v2) :: fs') hs2.2 (by simp)
    rw [renderMembersChars_cons_eq k v ((k2, v2) :: fs')
      (serializable_not_undef v hs2.1)]
    rw [if_neg (renderMembersChars_cons_ne_nil k2 v2 fs'
      (serializable_not_undef v2 hsv2))]
    have hp : pneedFields ((k, v) :: (k2, v2) :: fs') =
        max (pneed v) (pneedFields ((k2, v2) :: fs')) := rfl
    rw [hp]
    simp only [List.length_append, List.length_cons]
    have hl1 : ((k2, v2) :: fs').length = fs'.length + 1 := rfl
    constructor
    · omega
    · have hl2 : ((k, v) :: (k2, v2) :: fs').length = fs'.length + 2 := rfl
      omega

end

theorem jsonParse_stringify (v : JVal) (h : jsonSerializable v = true) :
    ∃ s, jsonStringify v = some s ∧ jsonParse s = some v := by
  have hnu : isUndef v = false := serializable_not_undef v h
  have hstr : jsonStringify v = some (String.mk (renderChars v)) := by
    cases v with
    | undef => simp [isUndef] at hnu
    | nullv => rfl
    | boolv b => rfl
    | numv m e => rfl
    | strv s => rfl
    | arrv xs => rfl
    | objv fs => rfl
  refine ⟨String.mk (renderChars v), hstr, ?_⟩
  unfold jsonParse
  have hdata : (String.mk (renderChars v)).data = renderChars v := rfl
  rw [hdata]
  have hfuel : pneed v ≤ (renderChars v).length + 1 := pneed_le_render v h
  have hmain := parseValueF_render v ((renderChars v).length + 1) [] h hfuel rfl
  rw [List.append_nil] at hmain
  rw [hmain]
  rfl

theorem coerceBodyString_not_str (b : JVal) (hns : ∀ t, b ≠ JVal.strv t) :
    coerceBodyString b =
      (match jsonStringify b with
       | some u => JVal.strv u
       | none => JVal.undef) := by
  cases b with
  | strv t => exact absurd rfl (hns t)
  | undef => rfl
  | nullv => rfl
  | boolv v => rfl
  | numv m e => rfl
  | arrv xs => rfl
  | objv fs => rfl

theorem dataHandlerApiShape_ok_body (options : ApiOptions) (data : JVal)
    (r : ApiResponse) (hok : dataHandlerApiShape options data = .ok r) :
    r.body = coerceBodyString (selectedApiBody data) := by
  unfold dataHandlerApiShape at hok
  unfold selectedApiBody
  by_cases hc : (isPlainObject data && jsHas data "statusCode") = true
  · rw [if_pos hc] at hok ⊢
    by_cases hn : isNumber (rawGet data "statusCode") = true
    · rw [if_neg (by simpa using hn)] at hok
      cases hok
      rfl
    · rw [if_pos (by simpa using hn)] at hok
      exact absurd hok (by simp)
  · rw [if_neg hc] at hok ⊢
    cases hok
    rfl

/-- C7: whenever the API response shaper succeeds and the selected body is
not a string but is JSON-serializable, the final body is a string whose
JSON parse is exactly the original selected body. (As literally stated the
claim is false: for an `undefined` success value the final body is
`JSON.stringify(undefined) = undefined`, not a string at all — see the
counterexample.) -/
theorem c7_nonstring_body_roundtrip (options : ApiOptions) (data : JVal)
    (r : ApiResponse) (hok : dataHandlerApiShape options data = Except.ok r)
    (hns : ∀ t, selectedApiBody data ≠ JVal.strv t)
    (hser : jsonSerializable (selectedApiBody data) = true) :
    ∃ s, r.body = JVal.strv s ∧ jsonParse s = some (selectedApiBody data) := by
  obtain ⟨s, hstr, hparse⟩ := jsonParse_stringify (selectedApiBody data) hser
  refine ⟨s, ?_, hparse⟩
  rw [dataHandlerApiShape_ok_body options data r hok,
      coerceBodyString_not_str _ hns, hstr]

/-- C7 witness: the success value is the plain object with the single
field a = 1 and no statusCode, so it is itself the selected body; the
shaper serializes it and the parse returns it. -/
theorem c7_nonstring_body_roundtrip_witness :
    ∃ r, dataHandlerApiShape ⟨none, none, none⟩
        (JVal.objv [("a", JVal.numv 1 0)]) = Except.ok r ∧
      ∃ s, r.body = JVal.strv s ∧
        jsonParse s = some (selectedApiBody (JVal.objv [("a", JVal.numv 1 0)])) :=
  ⟨⟨JVal.numv 200 0, coerceBodyString (JVal.objv [("a", JVal.numv 1 0)]),
    JVal.objv []⟩, rfl,
   c7_nonstring_body_roundtrip ⟨none, none, none⟩
     (JVal.objv [("a", JVal.numv 1 0)])
     ⟨JVal.numv 200 0, coerceBodyString (JVal.objv [("a", JVal.numv 1 0)]),
      JVal.objv []⟩ rfl (fun t h => by cases h) rfl⟩

/-- C7 counterexample: for the success value `undefined` (which is not a
string) the shaper succeeds with final body `undefined` — not a string,
hence not a valid JSON string that parses back to the original value. -/
theorem c7_counterexample_undefined_body :
    dataHandlerApiShape ⟨none, none, none⟩ JVal.undef =
      Except.ok ⟨JVal.numv 200 0, JVal.undef, JVal.objv []⟩ ∧
    (∀ t, JVal.undef ≠ JVal.strv t) :=
  ⟨rfl, fun t h => by cases h⟩

theorem hexVal_hexDigitUpper (n : Nat) (h : n < 16) :
    hexVal (hexDigitUpper n) = some n := by
  have c0 : ('0' : Char).toNat = 48 := by decide
  have c9 : ('9' : Char).toNat = 57 := by decide
  have ca : ('a' : Char).toNat = 97 := by decide
  have cA : ('A' : Char).toNat = 65 := by decide
  have cF : ('F' : Char).toNat = 70 := by decide
  unfold hexVal hexDigitUpper
  by_cases h10 : n < 10
  · have h48 : (Char.ofNat (48 + n)).toNat = 48 + n := charToNat_ofNat _ (by omega)
    rw [if_pos h10, if_pos ⟨(char_le_iff_toNat _ _).mpr (by rw [h48, c0]; omega),
      (char_le_iff_toNat _ _).mpr (by rw [h48, c9]; omega)⟩, h48]
    congr 1
    omega
  · have h55 : (Char.ofNat (55 + n)).toNat = 55 + n := charToNat_ofNat _ (by omega)
    rw [if_neg h10]
    rw [if_neg (fun hc => by
      have := (char_le_iff_toNat _ _).mp hc.2
      rw [h55] at this
      omega)]
    rw [if_neg (fun hc => by
      have := (char_le_iff_toNat _ _).mp hc.1
      rw [h55, ca] at this
      omega)]
    rw [if_pos ⟨(char_le_iff_toNat _ _).mpr (by rw [h55, cA]; omega),
      (char_le_iff_toNat _ _).mpr (by rw [h55, cF]; omega)⟩, h55]
    congr 1
    omega

theorem hexDigitUpper_facts : ∀ n < 16,
    hexDigitUpper n ≠ '+' ∧ hexDigitUpper n ≠ '&' ∧ hexDigitUpper n ≠ '=' ∧
    (hexDigitUpper n).toNat < 128 := by decide

theorem unreserved_toNat (c : Char) (h : isFormUnreserved c = true) :
    (65 ≤ c.toNat ∧ c.toNat ≤ 90) ∨ (97 ≤ c.toNat ∧ c.toNat ≤ 122) ∨
    (48 ≤ c.toNat ∧ c.toNat ≤ 57) ∨ c.toNat = 45 ∨ c.toNat = 95 ∨
    c.toNat = 46 ∨ c.toNat = 42 := by
  have cA : ('A' : Char).toNat = 65 := by decide
  have cZ : ('Z' : Char).toNat = 90 := by decide
  have ca : ('a' : Char).toNat = 97 := by decide
  have cz : ('z' : Char).toNat = 122 := by decide
  have c0 : ('0' : Char).toNat = 48 := by decide
  have c9 : ('9' : Char).toNat = 57 := by decide
  have cm : ('-' : Char).toNat = 45 := by decide
  have cu : ('_' : Char).toNat = 95 := by decide
  have cd : ('.' : Char).toNat = 46 := by decide
  have cs : ('*' : Char).toNat = 42 := by decide
  unfold isFormUnreserved at h
  simp only [Bool.or_eq_true, Bool.and_eq_true, decide_eq_true_eq] at h
  rcases h with ((((((h | h) | h) | h) | h) | h) | h)
  · exact Or.inl ⟨cA ▸ (char_le_iff_toNat _ _).mp h.1,
      cZ ▸ (char_le_iff_toNat _ _).mp h.2⟩
  · exact Or.inr (Or.inl ⟨ca ▸ (char_le_iff_toNat _ _).mp h.1,
      cz ▸ (char_le_iff_toNat _ _).mp h.2⟩)
  · exact Or.inr (Or.inr (Or.inl ⟨c0 ▸ (char_le_iff_toNat _ _).mp h.1,
      c9 ▸ (char_le_iff_toNat _ _).mp h.2⟩))
  · exact Or.inr (Or.inr (Or.inr (Or.inl (cm ▸ (char_eq_iff_toNat _ _).mp h))))
  · exact Or.inr (Or.inr (Or.inr (Or.inr (Or.inl
      (cu ▸ (char_eq_iff_toNat _ _).mp h)))))
  · exact Or.inr (Or.inr (Or.inr (Or.inr (Or.inr (Or.inl
      (cd ▸ (char_eq_iff_toNat _ _).mp h))))))
  · exact Or.inr (Or.inr (Or.inr (Or.inr (Or.inr (Or.inr
      (cs ▸ (char_eq_iff_toNat _ _).mp h))))))

theorem unreserved_ne (c : Char) (h : isFormUnreserved c = true) :
    c ≠ '%' ∧ c ≠ '+' ∧ c ≠ '&' ∧ c ≠ '=' := by
  have hr := unreserved_toNat c h
  have cp : ('%' : Char).toNat = 37 := by decide
  have cpl : ('+' : Char).toNat = 43 := by decide
  have cam : ('&' : Char).toNat = 38 := by decide
  have ceq : ('=' : Char).toNat = 61 := by decide
  refine ⟨fun he => ?_, fun he => ?_, fun he => ?_, fun he => ?_⟩ <;>
    · have := (char_eq_iff_toNat _ _).mp he
      simp only [cp, cpl, cam, ceq] at this
      omega

theorem percentDecode_cons_ne (c : Char) (cs : List Char) (hc : ¬ c = '%') :
    percentDecode (c :: cs) = (percentDecode cs).map (fun r => c :: r) := by
  rw [percentDecode.eq_def]
  dsimp only
  rw [if_neg hc]

theorem percentDecode_pct (h1 h2 : Char) (cs : List Char) (a b : Nat)
    (ha : hexVal h1 = some a) (hb : hexVal h2 = some b)
    (hlt : a * 16 + b < 128) :
    percentDecode ('%' :: h1 :: h2 :: cs) =
      (percentDecode cs).map (fun r => Char.ofNat (a * 16 + b) :: r) := by
  rw [percentDecode.eq_def]
  dsimp only
  rw [if_pos rfl, ha, hb]
  dsimp only
  rw [if_pos hlt]

theorem percentDecode_encChar (c : Char) (hc : c.toNat < 128)
    (rest : List Char) :
    percentDecode (plusToSpace (formEncodeChar c) ++ rest) =
      (percentDecode rest).map (fun r => c :: r) := by
  unfold formEncodeChar
  by_cases hu : isFormUnreserved c = true
  · obtain ⟨hpct, hplus, _, _⟩ := unreserved_ne c hu
    rw [if_pos hu]
    rw [show plusToSpace [c] = [if c = '+' then ' ' else c] from rfl, if_neg hplus]
    rw [show ([c] : List Char) ++ rest = c :: rest from rfl]
    exact percentDecode_cons_ne c rest hpct
  · rw [if_neg hu]
    by_cases hsp : c = ' '
    · rw [if_pos hsp]
      rw [show plusToSpace ['+'] = [' '] from rfl]
      rw [show ([' '] : List Char) ++ rest = ' ' :: rest from rfl]
      rw [percentDecode_cons_ne ' ' rest (by decide), hsp]
    · rw [if_neg hsp]
      have hfx := hexDigitUpper_facts (c.toNat / 16) (by omega)
      have hfy := hexDigitUpper_facts (c.toNat % 16) (by omega)
      simp only [plusToSpace, List.map_cons, List.map_nil]
      rw [if_neg (show ¬ ('%' : Char) = '+' by decide),
        if_neg hfx.1, if_neg hfy.1]
      simp only [List.cons_append, List.nil_append]
      rw [percentDecode_pct _ _ rest (c.toNat / 16) (c.toNat % 16)
        (hexVal_hexDigitUpper _ (by omega)) (hexVal_hexDigitUpper _ (by omega))
        (by omega)]
      have hdm : c.toNat / 16 * 16 + c.toNat % 16 = c.toNat := by omega
      rw [hdm, Char.ofNat_toNat]

theorem percentDecode_plusToSpace_encode :
    ∀ (s : List Char), (∀ d ∈ s, d.toNat < 128) →
    percentDecode (plusToSpace (formEncodeStr s)) = some s
  | [], _ => rfl
  | c :: cs, h => by
    have hc : c.toNat < 128 := h c (by simp)
    have ih := percentDecode_plusToSpace_encode cs (fun d hd => h d (by simp [hd]))
    rw [show formEncodeStr (c :: cs) = formEncodeChar c ++ formEncodeStr cs
      from rfl]
    rw [show plusToSpace (formEncodeChar c ++ formEncodeStr cs) =
      plusToSpace (formEncodeChar c) ++ plusToSpace (formEncodeStr cs)
      from List.map_append _ _ _]
    rw [percentDecode_encChar c hc (plusToSpace (formEncodeStr cs)), ih]
    rfl

theorem formEncodeChar_mem_ne (c d : Char) (hd : d.toNat < 128)
    (hm : c ∈ formEncodeChar d) : c ≠ '&' ∧ c ≠ '=' := by
  unfold formEncodeChar at hm
  by_cases hu : isFormUnreserved d = true
  · rw [if_pos hu] at hm
    have hc : c = d := by simpa using hm
    obtain ⟨_, _, h3, h4⟩ := unreserved_ne d hu
    exact ⟨hc ▸ h3, hc ▸ h4⟩
  · rw [if_neg hu] at hm
    by_cases hsp : d = ' '
    · rw [if_pos hsp] at hm
      have hc : c = '+' := by simpa using hm
      rw [hc]
      exact ⟨by decide, by decide⟩
    · rw [if_neg hsp] at hm
      have hfx := hexDigitUpper_facts (d.toNat / 16) (by omega)
      have hfy := hexDigitUpper_facts (d.toNat % 16) (by omega)
      simp only [List.mem_cons, List.not_mem_nil, or_false] at hm
      rcases hm with hm | hm | hm
      · rw [hm]
        exact ⟨by decide, by decide⟩
      · rw [hm]
        exact ⟨hfx.2.1, hfx.2.2.1⟩
      · rw [hm]
        exact ⟨hfy.2.1, hfy.2.2.1⟩

theorem formEncodeChar_ascii (c d : Char) (hd : d.toNat < 128)
    (hm : c ∈ formEncodeChar d) : c.toNat < 128 := by
  unfold formEncodeChar at hm
  by_cases hu : isFormUnreserved d = true
  · rw [if_pos hu] at hm
    have hc : c = d := by simpa using hm
    rw [hc]
    exact hd
  · rw [if_neg hu] at hm
    by_cases hsp : d = ' '
    · rw [if_pos hsp] at hm
      have hc : c = '+' := by simpa using hm
      rw [hc]
      decide
    · rw [if_neg hsp] at hm
      have hfx := hexDigitUpper_facts (d.toNat / 16) (by omega)
      have hfy := hexDigitUpper_facts (d.toNat % 16) (by omega)
      simp only [List.mem_cons, List.not_mem_nil, or_false] at hm
      rcases hm with hm | hm | hm
      · rw [hm]
        decide
      · rw [hm]
        exact hfx.2.2.2
      · rw [hm]
        exact hfy.2.2.2

theorem formEncodeStr_mem :
    ∀ (s : List Char), (∀ d ∈ s, d.toNat < 128) →
    ∀ c ∈ formEncodeStr s, (c ≠ '&' ∧ c ≠ '=') ∧ c.toNat < 128
  | [], _, c, hm => by simp [formEncodeStr] at hm
  | d :: ds, h, c, hm => by
    rw [show formEncodeStr (d :: ds) = formEncodeChar d ++ formEncodeStr ds
      from rfl] at hm
    rcases List.mem_append.mp hm with hm | hm
    · exact ⟨formEncodeChar_mem_ne c d (h d (by simp)) hm,
        formEncodeChar_ascii c d (h d (by simp)) hm⟩
    · exact formEncodeStr_mem ds (fun e he => h e (by simp [he])) c hm

theorem splitOnChar_exists (sep : Char) :
    ∀ (cs : List Char), ∃ h t, splitOnChar sep cs = h :: t
  | [] => ⟨[], [], rfl⟩
  | c :: cs => by
    obtain ⟨h, t, ht⟩ := splitOnChar_exists sep cs
    by_cases hc : c = sep
    · refine ⟨[], h :: t, ?_⟩
      simp only [splitOnChar]
      rw [ht, if_pos hc]
    · refine ⟨c :: h, t, ?_⟩
      simp only [splitOnChar]
      rw [ht, if_neg hc]

theorem splitOnChar_no_sep (sep : Char) :
    ∀ (cs : List Char), (∀ c ∈ cs, c ≠ sep) →
    splitOnChar sep cs = [cs]
  | [], _ => rfl
  | c :: cs, h => by
    have ih := splitOnChar_no_sep sep cs (fun d hd => h d (by simp [hd]))
    simp only [splitOnChar]
    rw [ih, if_neg (h c (by simp))]

theorem splitOnChar_append_cons (sep : Char) (xs ys : List Char)
    (h : List Char) (t : List (List Char))
    (hx : ∀ c ∈ xs, c ≠ sep) (hy : splitOnChar sep ys = h :: t) :
    splitOnChar sep (xs ++ ys) = (xs ++ h) :: t := by
  induction xs with
  | nil => simpa using hy
  | cons c xs ih =>
    have hc : c ≠ sep := hx c (by simp)
    have ih2 := ih (fun d hd => hx d (by simp [hd]))
    simp only [List.cons_append, splitOnChar]
    simp only [List.append_eq]
    simp only [List.append_eq] at ih2
    rw [ih2, if_neg hc]

theorem splitOnChar_cons_sep (sep : Char) (ys : List Char) :
    splitOnChar sep (sep :: ys) = [] :: splitOnChar sep ys := by
  simp only [splitOnChar, if_true]

theorem parseFormPair_encode (k v : String)
    (hk : ∀ d ∈ k.data, d.toNat < 128) (hv : ∀ d ∈ v.data, d.toNat < 128) :
    parseFormPair (formEncodePair (k, v)) = .ok (k, v) := by
  have hkset := formEncodeStr_mem k.data hk
  have hvset := formEncodeStr_mem v.data hv
  have hsv : splitOnChar '=' (formEncodeStr v.data) = [formEncodeStr v.data] :=
    splitOnChar_no_sep '=' _ (fun c hc => (hvset c hc).1.2)
  have h2 : splitOnChar '=' ('=' :: formEncodeStr v.data) =
      [] :: [formEncodeStr v.data] := by
    rw [splitOnChar_cons_sep, hsv]
  have h3 := splitOnChar_append_cons '=' (formEncodeStr k.data)
    ('=' :: formEncodeStr v.data) [] [formEncodeStr v.data]
    (fun c hc => (hkset c hc).1.2) h2
  unfold parseFormPair
  rw [show formEncodePair (k, v) =
    formEncodeStr k.data ++ '=' :: formEncodeStr v.data from rfl, h3,
    List.append_nil]
  dsimp only
  rw [percentDecode_plusToSpace_encode k.data hk,
    percentDecode_plusToSpace_encode v.data hv]

theorem b64Index_b64Char : ∀ n < 64, b64Index (b64Char n) = some n := by decide

theorem b64Index_pad : b64Index '=' = none := by decide

theorem b64_roundtrip : ∀ (bytes : List Nat), (∀ b ∈ bytes, b < 256) →
    b64DecodeToBytes (b64EncodeBytes bytes) = bytes
  | [], _ => rfl
  | [a], h => by
    have ha : a < 256 := h a (by simp)
    have h1 : b64Index (b64Char (a / 4)) = some (a / 4) :=
      b64Index_b64Char _ (by omega)
    have h2 : b64Index (b64Char (a % 4 * 16)) = some (a % 4 * 16) :=
      b64Index_b64Char _ (by omega)
    unfold b64DecodeToBytes
    rw [show b64EncodeBytes [a] =
      [b64Char (a / 4), b64Char (a % 4 * 16), '=', '='] from rfl]
    simp only [List.filterMap_cons, h1, h2, b64Index_pad, List.filterMap_nil]
    rw [show b64DecodeSextets [a / 4, a % 4 * 16] =
      [a / 4 * 4 + (a % 4 * 16) / 16] from rfl]
    have : a / 4 * 4 + (a % 4 * 16) / 16 = a := by omega
    rw [this]
  | [a, b], h => by
    have ha : a < 256 := h a (by simp)
    have hb : b < 256 := h b (by simp)
    have h1 : b64Index (b64Char (a / 4)) = some (a / 4) :=
      b64Index_b64Char _ (by omega)
    have h2 : b64Index (b64Char (a % 4 * 16 + b / 16)) =
        some (a % 4 * 16 + b / 16) := b64Index_b64Char _ (by omega)
    have h3 : b64Index (b64Char (b % 16 * 4)) = some (b % 16 * 4) :=
      b64Index_b64Char _ (by omega)
    unfold b64DecodeToBytes
    rw [show b64EncodeBytes [a, b] =
      [b64Char (a / 4), b64Char (a % 4 * 16 + b / 16), b64Char (b % 16 * 4), '=']
      from rfl]
    simp only [List.filterMap_cons, h1, h2, h3, b64Index_pad, List.filterMap_nil]
    rw [show b64DecodeSextets [a / 4, a % 4 * 16 + b / 16, b % 16 * 4] =
      [a / 4 * 4 + (a % 4 * 16 + b / 16) / 16,
       (a % 4 * 16 + b / 16) % 16 * 16 + (b % 16 * 4) / 4] from rfl]
    have e1 : a / 4 * 4 + (a % 4 * 16 + b / 16) / 16 = a := by omega
    have e2 : (a % 4 * 16 + b / 16) % 16 * 16 + (b % 16 * 4) / 4 = b := by omega
    rw [e1, e2]
  | a :: b :: c :: rest, h => by
    have ha : a < 256 := h a (by simp)
    have hb : b < 256 := h b (by simp)
    have hc : c < 256 := h c (by simp)
    have ih := b64_roundtrip rest (fun d hd => h d (by simp [hd]))
    have h1 : b64Index (b64Char (a / 4)) = some (a / 4) :=
      b64Index_b64Char _ (by omega)
    have h2 : b64Index (b64Char (a % 4 * 16 + b / 16)) =
        some (a % 4 * 16 + b / 16) := b64Index_b64Char _ (by omega)
    have h3 : b64Index (b64Char (b % 16 * 4 + c / 64)) =
        some (b % 16 * 4 + c / 64) := b64Index_b64Char _ (by omega)
    have h4 : b64Index (b64Char (c % 64)) = some (c % 64) :=
      b64Index_b64Char _ (by omega)
    unfold b64DecodeToBytes at ih ⊢
    rw [show b64EncodeBytes (a :: b :: c :: rest) =
      b64Char (a / 4) :: b64Char (a % 4 * 16 + b / 16) ::
      b64Char (b % 16 * 4 + c / 64) :: b64Char (c % 64) :: b64EncodeBytes rest
      from rfl]
    simp only [List.filterMap_cons, h1, h2, h3, h4]
    rw [show b64DecodeSextets ((a / 4) :: (a % 4 * 16 + b / 16) ::
      (b % 16 * 4 + c / 64) :: (c % 64) ::
      List.filterMap b64Index (b64EncodeBytes rest)) =
      (a / 4 * 4 + (a % 4 * 16 + b / 16) / 16) ::
      ((a % 4 * 16 + b / 16) % 16 * 16 + (b % 16 * 4 + c / 64) / 4) ::
      ((b % 16 * 4 + c / 64) % 4 * 64 + c % 64) ::
      b64DecodeSextets (List.filterMap b64Index (b64EncodeBytes rest))
      from rfl]
    have e1 : a / 4 * 4 + (a % 4 * 16 + b / 16) / 16 = a := by omega
    have e2 : (a % 4 * 16 + b / 16) % 16 * 16 + (b % 16 * 4 + c / 64) / 4 = b := by
      omega
    have e3 : (b % 16 * 4 + c / 64) % 4 * 64 + c % 64 = c := by omega
    rw [e1, e2, e3, ih]

theorem bufferFromBase64_encode (s : String) (h : ∀ d ∈ s.data, d.toNat < 128) :
    bufferFromBase64ToString
      (String.mk (b64EncodeBytes (s.data.map Char.toNat))) = s := by
  unfold bufferFromBase64ToString
  rw [show (String.mk (b64EncodeBytes (s.data.map Char.toNat))).data =
    b64EncodeBytes (s.data.map Char.toNat) from rfl]
  rw [b64_roundtrip (s.data.map Char.toNat)
    (fun b hb => by
      obtain ⟨d, hd, hdb⟩ := List.mem_map.mp hb
      have := h d hd
      omega)]
  rw [List.map_map]
  have hmap : s.data.map (Char.ofNat ∘ Char.toNat) = s.data :=
    List.map_congr_left (fun d _ => Char.ofNat_toNat d) |>.trans (List.map_id _)
  rw [hmap, stringMk_data]

theorem isAsciiStr_mem (s : String) (h : isAsciiStr s = true) :
    ∀ d ∈ s.data, d.toNat < 128 := by
  intro d hd
  have := List.all_eq_true.mp h d hd
  simpa using this

theorem formEncodePair_mem (kv : String × String)
    (h1 : ∀ d ∈ kv.1.data, d.toNat < 128)
    (h2 : ∀ d ∈ kv.2.data, d.toNat < 128) :
    ∀ c ∈ formEncodePair kv, c ≠ '&' ∧ c.toNat < 128 := by
  intro c hm
  rw [show formEncodePair kv =
    formEncodeStr kv.1.data ++ '=' :: formEncodeStr kv.2.data from rfl] at hm
  rcases List.mem_append.mp hm with hm | hm
  · exact ⟨(formEncodeStr_mem _ h1 c hm).1.1, (formEncodeStr_mem _ h1 c hm).2⟩
  · rcases List.mem_cons.mp hm with hm | hm
    · rw [hm]
      exact ⟨by decide, by decide⟩
    · exact ⟨(formEncodeStr_mem _ h2 c hm).1.1, (formEncodeStr_mem _ h2 c hm).2⟩

theorem joinAmpPairs_mem : ∀ (ps : List (String × String)),
    (∀ kv ∈ ps, (∀ d ∈ (kv.1 : String).data, d.toNat < 128) ∧
      (∀ d ∈ (kv.2 : String).data, d.toNat < 128)) →
    ∀ c ∈ joinAmpPairs ps, c.toNat < 128
  | [], _, c, hm => by simp [joinAmpPairs] at hm
  | [kv], h, c, hm => by
    rw [show joinAmpPairs [kv] = formEncodePair kv from rfl] at hm
    exact (formEncodePair_mem kv (h kv (by simp)).1 (h kv (by simp)).2 c hm).2
  | kv :: kv2 :: rest, h, c, hm => by
    rw [show joinAmpPairs (kv :: kv2 :: rest) =
      formEncodePair kv ++ '&' :: joinAmpPairs (kv2 :: rest) from rfl] at hm
    rcases List.mem_append.mp hm with hm | hm
    · exact (formEncodePair_mem kv (h kv (by simp)).1 (h kv (by simp)).2 c hm).2
    · rcases List.mem_cons.mp hm with hm | hm
      · rw [hm]
        decide
      · exact joinAmpPairs_mem (kv2 :: rest)
          (fun p hp => h p (by simp [hp])) c hm

theorem splitAmp_joinAmp : ∀ (ps : List (String × String)), ps ≠ [] →
    (∀ kv ∈ ps, (∀ d ∈ (kv.1 : String).data, d.toNat < 128) ∧
      (∀ d ∈ (kv.2 : String).data, d.toNat < 128)) →
    splitOnChar '&' (joinAmpPairs ps) = ps.map formEncodePair
  | [], hne, _ => absurd rfl hne
  | [kv], _, h => by
    rw [show joinAmpPairs [kv] = formEncodePair kv from rfl]
    rw [splitOnChar_no_sep '&' _ (fun c hc =>
      (formEncodePair_mem kv (h kv (by simp)).1 (h kv (by simp)).2 c hc).1)]
    rfl
  | kv :: kv2 :: rest, _, h => by
    have ih := splitAmp_joinAmp (kv2 :: rest) (by simp)
      (fun p hp => h p (by simp [hp]))
    rw [show joinAmpPairs (kv :: kv2 :: rest) =
      formEncodePair kv ++ '&' :: joinAmpPairs (kv2 :: rest) from rfl]
    have h2 : splitOnChar '&' ('&' :: joinAmpPairs (kv2 :: rest)) =
        [] :: (kv2 :: rest).map formEncodePair := by
      rw [splitOnChar_cons_sep, ih]
    rw [splitOnChar_append_cons '&' _ _ [] _ (fun c hc =>
      (formEncodePair_mem kv (h kv (by simp)).1 (h kv (by simp)).2 c hc).1) h2]
    rw [List.append_nil]
    rfl

theorem joinAmpPairs_ne_nil : ∀ (kv : String × String)
    (rest : List (String × String)), joinAmpPairs (kv :: rest) ≠ []
  | kv, [] => by
    show formEncodeStr kv.1.data ++ '=' :: formEncodeStr kv.2.data ≠ []
    simp
  | kv, kv2 :: rest => by
    show formEncodePair kv ++ '&' :: joinAmpPairs (kv2 :: rest) ≠ []
    simp

theorem b64EncodeBytes_ne_nil (x : Nat) (rest : List Nat) :
    b64EncodeBytes (x :: rest) ≠ [] := by
  match rest with
  | [] => simp [b64EncodeBytes]
  | [b] => simp [b64EncodeBytes]
  | b :: c :: rest2 => simp [b64EncodeBytes]

theorem hasField_append : ∀ (a b : List (String × JVal)) (key : String),
    hasField (a ++ b) key = (hasField a key || hasField b key)
  | [], b, key => by simp [hasField]
  | (k, v) :: a, b, key => by
    simp only [List.cons_append, hasField]
    simp only [List.append_eq]
    rw [hasField_append a b key, Bool.or_assoc]

theorem setField_absent : ∀ (fs : List (String × JVal)) (key : String) (v : JVal),
    hasField fs key = false → setField fs key v = fs ++ [(key, v)]
  | [], key, v, _ => rfl
  | (k, w) :: fs, key, v, h => by
    have h2 : (k == key) = false ∧ hasField fs key = false := by
      have hh : ((k == key) || hasField fs key) = false := h
      simpa using hh
    simp only [setField]
    rw [if_neg (by simpa using h2.1)]
    rw [setField_absent fs key v h2.2]
    simp

theorem truthy_strv_mk (l : List Char) (h : l ≠ []) :
    truthy (.strv (String.mk l)) = true := by
  show (String.mk l != "") = true
  simp only [bne_iff_ne, ne_eq]
  intro he
  apply h
  have hd : (String.mk l).data = ("" : String).data := by rw [he]
  simpa using hd

theorem buildFormBody_pairs : ∀ (ps : List (String × String))
    (acc : List (String × JVal)),
    (∀ kv ∈ ps, (∀ d ∈ (kv.1 : String).data, d.toNat < 128) ∧
      (∀ d ∈ (kv.2 : String).data, d.toNat < 128)) →
    (∀ kv ∈ ps, hasField acc kv.1 = false) →
    (ps.map Prod.fst).Nodup →
    buildFormBody acc (ps.map formEncodePair) =
      .ok (acc ++ ps.map (fun kv => (kv.1, JVal.strv kv.2)))
  | [], acc, _, _, _ => by simp [buildFormBody]
  | (k, v) :: ps, acc, hascii, habs, hnd => by
    have hk1 : ∀ d ∈ k.data, d.toNat < 128 := (hascii (k, v) (by simp)).1
    have hk2 : ∀ d ∈ v.data, d.toNat < 128 := (hascii (k, v) (by simp)).2
    have hnd' : (k :: ps.map Prod.fst).Nodup := by
      rw [List.map_cons] at hnd
      exact hnd
    have hnd2 := List.nodup_cons.mp hnd'
    rw [List.map_cons]
    simp only [buildFormBody]
    rw [parseFormPair_encode k v hk1 hk2]
    dsimp only
    rw [setField_absent acc k _ (habs (k, v) (by simp))]
    rw [buildFormBody_pairs ps (acc ++ [(k, JVal.strv v)])
      (fun kv hkv => hascii kv (by simp [hkv]))
      (fun kv hkv => by
        rw [hasField_append]
        have hh1 := habs kv (by simp [hkv])
        have hh2 : hasField [(k, JVal.strv v)] kv.1 = false := by
          show ((k == kv.1) || false) = false
          have hkne : k ≠ kv.1 := by
            intro he
            apply hnd2.1
            rw [he]
            exact List.mem_map.mpr ⟨kv, hkv, rfl⟩
          simp [hkne]
        rw [hh1, hh2]
        rfl)
      hnd2.2]
    simp [List.append_assoc]

/-- C8: for every NONEMPTY mapping with distinct ASCII keys and ASCII
values, standard form-url-encoding it, base64-encoding the result into
`event.body64` (with no truthy `body` on the event), and running
`preprocessorBody64FormUrlEncoded` succeeds and yields an `event.body`
mapping equal to the original mapping, with every other event field and
the context untouched.  (As literally stated the claim is false for the
empty mapping: its encoding is the empty string, whose base64 encoding is
again empty and hence falsy, so the preprocessor rejects the event — see
the counterexample.) -/
theorem c8_form_urlencoded_left_inverse {γ : Type}
    (pairs : List (String × String)) (ev : List (String × JVal)) (ctx : γ)
    (hne : pairs ≠ [])
    (hnd : (pairs.map Prod.fst).Nodup)
    (hascii : ∀ kv ∈ pairs, isAsciiStr kv.1 = true ∧ isAsciiStr kv.2 = true)
    (h64 : getField ev "body64" = JVal.strv (String.mk
      (b64EncodeBytes ((formUrlEncode pairs).data.map Char.toNat))))
    (hbody : truthy (getField ev "body") = false) :
    preprocessorBody64FormUrlEncoded ⟨ev, ctx⟩ =
      .ok ⟨setField ev "body"
        (.objv (pairs.map (fun kv => (kv.1, JVal.strv kv.2)))), ctx⟩ := by
  have hasc : ∀ kv ∈ pairs, (∀ d ∈ (kv.1 : String).data, d.toNat < 128) ∧
      (∀ d ∈ (kv.2 : String).data, d.toNat < 128) := fun kv hkv =>
    ⟨isAsciiStr_mem _ (hascii kv hkv).1, isAsciiStr_mem _ (hascii kv hkv).2⟩
  have hjoin_ne : joinAmpPairs pairs ≠ [] := by
    cases pairs with
    | nil => exact absurd rfl hne
    | cons kv rest => exact joinAmpPairs_ne_nil kv rest
  have hjascii : ∀ c ∈ joinAmpPairs pairs, c.toNat < 128 :=
    joinAmpPairs_mem pairs hasc
  have hdata : (formUrlEncode pairs).data = joinAmpPairs pairs := rfl
  have hbytes_ne : b64EncodeBytes ((formUrlEncode pairs).data.map Char.toNat) ≠
      [] := by
    rw [hdata]
    cases hj : joinAmpPairs pairs with
    | nil => exact absurd hj hjoin_ne
    | cons c cs =>
      rw [List.map_cons]
      exact b64EncodeBytes_ne_nil _ _
  have htr : truthy (getField ev "body64") = true := by
    rw [h64]
    exact truthy_strv_mk _ hbytes_ne
  have hdec : decodeEventBody64 ev = .ok (formUrlEncode pairs) := by
    unfold decodeEventBody64
    rw [if_neg (by simp [htr])]
    rw [if_neg (by simp [hbody])]
    rw [h64]
    dsimp only
    congr 1
    exact bufferFromBase64_encode _ (by rw [hdata]; exact hjascii)
  unfold preprocessorBody64FormUrlEncoded
  dsimp only
  rw [hdec]
  dsimp only
  rw [show (formUrlEncode pairs).data = joinAmpPairs pairs from rfl,
    splitAmp_joinAmp pairs hne hasc,
    buildFormBody_pairs pairs [] hasc (fun kv _ => rfl) hnd]
  dsimp only
  rw [List.nil_append]

/-- C8 witness: the one-entry mapping a = b c; its standard form encoding
is a=b+c, whose base64 encoding round-trips through the preprocessor back
to the mapping with a = b c. -/
theorem c8_form_urlencoded_left_inverse_witness :
    preprocessorBody64FormUrlEncoded (γ := Unit)
      ⟨[("body64", JVal.strv (String.mk
        (b64EncodeBytes ((formUrlEncode [("a", "b c")]).data.map Char.toNat))))],
       ()⟩ =
      .ok ⟨setField
        [("body64", JVal.strv (String.mk
          (b64EncodeBytes ((formUrlEncode [("a", "b c")]).data.map Char.toNat))))]
        "body" (.objv [("a", JVal.strv "b c")]), ()⟩ :=
  c8_form_urlencoded_left_inverse [("a", "b c")] _ ()
    (by simp) (by simp) (by decide) rfl rfl

/-- C8 counterexample: for the EMPTY mapping the encoded form body is the
empty string, its base64 encoding is the empty (falsy) string, and the
preprocessor rejects the event with the 500-class 'No base64-encoded body
found' instead of producing the empty mapping. -/
theorem c8_counterexample_empty_mapping :
    preprocessorBody64FormUrlEncoded (γ := Unit)
      ⟨[("body64", JVal.strv (String.mk
        (b64EncodeBytes ((formUrlEncode []).data.map Char.toNat))))], ()⟩ =
      .error (.boom (badImplementation "No base64-encoded body found")) := rfl
